import Mathlib

/-!
Verification of the go-rdbms engine: a shallow embedding of the
relational-model code in `engine/table.go` and `engine/storage.go`, of the
persistence codec, and of the SQL lexer/parser in `parser/lexer.go` and
`parser/parser.go`, together with theorems settling the frozen claims
about the natural-language specification.

Go strings are modelled as `List Char` (`GoString`), Go `interface{}`
scalar values as `Option Value` (`none` is Go's untyped `nil`), Go maps as
association lists, and Go row pointers as numeric row identifiers drawn
from a per-table store, so that in-place mutation of a row shared between
the row sequence and the primary-key index is observable exactly as in Go.
-/

set_option autoImplicit false

deriving instance DecidableEq for Except

namespace GoRdbms

/-- Go strings, modelled as lists of characters. -/
abbrev GoString := List Char

/-- Embed a Lean string literal as a `GoString`. -/
def gs (s : String) : GoString := s.data

/-! ## Go string-library helpers (strings.Split, Join, TrimSpace, ...) -/

/-- `strings.Split` with a single-character separator.
`splitChar c s` always returns a non-empty list, as in Go. -/
def splitChar (sep : Char) : GoString → List GoString
  | [] => [[]]
  | c :: cs =>
    if c = sep then [] :: splitChar sep cs
    else
      match splitChar sep cs with
      | [] => [[c]]
      | p :: ps => (c :: p) :: ps

/-- `strings.Join` with a single-character separator. -/
def joinChar (sep : Char) : List GoString → GoString
  | [] => []
  | [x] => x
  | x :: xs => x ++ sep :: joinChar sep xs

/-- The ASCII white-space characters recognised by `unicode.IsSpace`
(the inputs manipulated by the codec are ASCII). -/
def isGoSpace (c : Char) : Bool :=
  c = ' ' || c = '\t' || c = '\n' || c = '\r' || c = '\x0b' || c = '\x0c'

/-- `strings.TrimSpace`. -/
def goTrimSpace (s : GoString) : GoString :=
  ((s.dropWhile isGoSpace).reverse.dropWhile isGoSpace).reverse

/-- `strings.HasPrefix`. -/
def goStartsWith : GoString → GoString → Bool
  | _, [] => true
  | [], _ :: _ => false
  | c :: cs, p :: ps => c = p && goStartsWith cs ps

/-- `strings.TrimPrefix`. -/
def goDropStart (s pre : GoString) : GoString :=
  if goStartsWith s pre then s.drop pre.length else s

/-- `strings.ToLower`, ASCII case folding. -/
def goToLower (s : GoString) : GoString :=
  s.map fun c => if 'A' ≤ c ∧ c ≤ 'Z' then Char.ofNat (c.toNat + 32) else c

/-- `strings.ToUpper`, ASCII case folding. -/
def goToUpper (s : GoString) : GoString :=
  s.map fun c => if 'a' ≤ c ∧ c ≤ 'z' then Char.ofNat (c.toNat - 32) else c

/-- `strings.Contains` for a single character. -/
def containsChar (s : GoString) (c : Char) : Bool := s.contains c

/-- `strings.ReplaceAll(s, "\"\"", "\"")`: collapse doubled quotes. -/
def unescapeQuotes : GoString → GoString
  | [] => []
  | '"' :: '"' :: rest => '"' :: unescapeQuotes rest
  | c :: rest => c :: unescapeQuotes rest

/-! ## Decimal integers (fmt "%v" on int, strconv.Atoi) -/

/-- Render a decimal digit as a character. -/
def digitToChar (d : Nat) : Char := Char.ofNat (48 + d)

/-- Fuelled decimal renderer (the fuel only bounds the recursion depth;
`n + 1` is always enough). -/
def natCharsAux : Nat → Nat → GoString
  | 0, _ => []
  | fuel + 1, n =>
    if n < 10 then [digitToChar n]
    else natCharsAux fuel (n / 10) ++ [digitToChar (n % 10)]

/-- The decimal rendering of a natural number, most significant digit
first. -/
def natChars (n : Nat) : GoString := natCharsAux (n + 1) n

/-- `fmt.Sprintf("%v", i)` for a Go `int`. -/
def goFormatInt (i : Int) : GoString :=
  if i < 0 then '-' :: natChars i.natAbs else natChars i.natAbs

/-- Read a decimal digit character. -/
def charDigit (c : Char) : Option Nat :=
  if '0' ≤ c ∧ c ≤ '9' then some (c.toNat - 48) else none

/-- Accumulating digit parser behind `strconv.Atoi`. -/
def parseNatAux : GoString → Nat → Option Nat
  | [], acc => some acc
  | c :: cs, acc =>
    match charDigit c with
    | none => none
    | some d => parseNatAux cs (acc * 10 + d)

/-- Parse a non-empty all-digit string. -/
def parseNatDigits : GoString → Option Nat
  | [] => none
  | cs => parseNatAux cs 0

/-- `strconv.Atoi`: optional sign, then at least one decimal digit.
(Overflow is not modelled; values are unbounded integers.) -/
def goAtoi : GoString → Option Int
  | [] => none
  | c :: rest =>
    if c = '-' then (parseNatDigits rest).map fun n => -(n : Int)
    else if c = '+' then (parseNatDigits rest).map fun n => (n : Int)
    else (parseNatDigits (c :: rest)).map fun n => (n : Int)

/-! ## Data model: values, rows, columns, tables -/

/-- A non-nil dynamically-typed scalar held in a Go `interface{}`. -/
inductive Value where
  | vInt (i : Int)
  | vText (s : GoString)
  | vBool (b : Bool)
deriving DecidableEq, Repr

/-- A Go `interface{}` slot: either `nil` or a scalar. -/
abbrev GoVal := Option Value

/-- Go `==` / `reflect.DeepEqual` on the scalar values used by the engine:
type-and-value equality, with `nil` equal only to `nil`. -/
def goEq (a b : GoVal) : Bool := decide (a = b)

/-- `parser.DataType`. -/
inductive DataType where
  | integer
  | text
  | boolean
deriving DecidableEq, Repr

/-- `DataType.String()`. -/
def DataType.render : DataType → GoString
  | .integer => gs "INTEGER"
  | .text => gs "TEXT"
  | .boolean => gs "BOOLEAN"

/-- `engine.Column`. -/
structure Column where
  name : GoString
  dataType : DataType
  primaryKey : Bool
  unique : Bool
deriving DecidableEq, Repr

/-- A row's data: the Go `map[string]interface{}` as an association list.
An entry `(c, none)` is a key present with value `nil`, which Go
distinguishes from an absent key. -/
abbrev RowMap := List (GoString × GoVal)

/-- Whether the map has an entry for `c` (`_, ok := m[c]`). -/
def RowMap.lookupEntry (r : RowMap) (c : GoString) : Option GoVal :=
  match r.find? (fun p => p.1 = c) with
  | none => none
  | some p => some p.2

/-- `Row.GetValue`: a Go map read, returning `nil` for a missing key. -/
def RowMap.getValue (r : RowMap) (c : GoString) : GoVal :=
  (r.lookupEntry c).getD none

/-- `Row.SetValue`: a Go map write (replace an existing key in place,
otherwise append). -/
def RowMap.setValue : RowMap → GoString → GoVal → RowMap
  | [], c, v => [(c, v)]
  | (c', v') :: rest, c, v =>
    if c' = c then (c', v) :: rest else (c', v') :: RowMap.setValue rest c v

/-- The primary-key index `map[interface{}]*Row`, mapping a key value to
the identifier of the row it owns. -/
abbrev PkIndex := List (GoVal × Nat)

/-- Index read. -/
def PkIndex.get (idx : PkIndex) (k : GoVal) : Option Nat :=
  match idx.find? (fun p => goEq p.1 k) with
  | none => none
  | some p => some p.2

/-- Index write (replace an existing key, otherwise append). -/
def PkIndex.set : PkIndex → GoVal → Nat → PkIndex
  | [], k, i => [(k, i)]
  | (k', i') :: rest, k, i =>
    if goEq k' k then (k', i) :: rest else (k', i') :: PkIndex.set rest k i

/-- Index delete (`delete(t.index, pkValue)`). -/
def PkIndex.del : PkIndex → GoVal → PkIndex
  | [], _ => []
  | (k', i') :: rest, k =>
    if goEq k' k then rest else (k', i') :: PkIndex.del rest k

/-- `engine.Table`.  Go rows are heap objects referenced both from the
`Rows` slice and from the index; here every row gets a numeric identifier,
`rowIds` is the `Rows` slice of pointers, and `store` is the heap. -/
structure Table where
  name : GoString
  columns : List Column
  rowIds : List Nat
  store : List (Nat × RowMap)
  primaryKey : GoString
  index : PkIndex
  nextId : Nat
deriving DecidableEq, Repr

/-- Dereference a row pointer. -/
def Table.resolve (t : Table) (rid : Nat) : RowMap :=
  match t.store.find? (fun p => p.1 = rid) with
  | none => []
  | some p => p.2

/-- Overwrite the heap cell of row `rid` (in-place row mutation). -/
def storeSet : List (Nat × RowMap) → Nat → RowMap → List (Nat × RowMap)
  | [], rid, r => [(rid, r)]
  | (rid', r') :: rest, rid, r =>
    if rid' = rid then (rid', r) :: rest else (rid', r') :: storeSet rest rid r

/-- `engine.NewTable`: records the first column flagged as primary key. -/
def newTable (name : GoString) (columns : List Column) : Table :=
  { name := name
    columns := columns
    rowIds := []
    store := []
    primaryKey := ((columns.find? (·.primaryKey)).map (·.name)).getD []
    index := []
    nextId := 0 }

/-- The error outcomes of the engine, one constructor per `fmt.Errorf`
site.  The spec's taxonomy classifies `missingColumn`/`typeMismatch` as
SchemaError, `pkViolation`/`uniqueViolation` as ConstraintError,
`rowNotFound` as NotFoundError, `noPrimaryKey` as SchemaError and
`unsupportedJoin` as UnsupportedError. -/
inductive Err where
  | missingColumn (col : GoString)
  | typeMismatch (col : GoString)
  | pkViolation (v : GoVal)
  | uniqueViolation (col : GoString) (v : GoVal)
  | rowNotFound (v : GoVal)
  | columnNotFound (col : GoString)
  | noPrimaryKey
  | tableNotFound (name : GoString)
  | joinedTableNotFound (name : GoString)
  | unsupportedJoin
  | notAColumnName
  | unsupportedWhere
  | identifierInValueContext
  | unsupportedExpression
  | emptyCSV
  | invalidSchemaLine (line : GoString)
  | invalidColumnDefinition (colDef : GoString)
  | rowLengthMismatch (i got expected : Nat)
  | valueParseError (col : GoString) (e : Err)
  | invalidBoolean (s : GoString)
  | atoiFailure (s : GoString)
  | rowInsertError (i : Nat) (e : Err)
deriving DecidableEq, Repr

/-! ## Table operations (engine/table.go) -/

/-- `Table.validateValueType`: the stored value must be a non-nil scalar
of the declared type (a `nil` interface fails every type assertion). -/
def validateValueType (col : Column) (v : GoVal) : Option Err :=
  match col.dataType, v with
  | .integer, some (.vInt _) => none
  | .integer, _ => some (.typeMismatch col.name)
  | .text, some (.vText _) => none
  | .text, _ => some (.typeMismatch col.name)
  | .boolean, some (.vBool _) => none
  | .boolean, _ => some (.typeMismatch col.name)

/-- First loop of `Table.ValidateRow`: every declared column must be
present, and present values must type-check. -/
def validateColumns : List Column → RowMap → Option Err
  | [], _ => none
  | col :: rest, r =>
    match r.lookupEntry col.name with
    | none => some (.missingColumn col.name)
    | some v =>
      match validateValueType col v with
      | some e => some e
      | none => validateColumns rest r

/-- Third loop of `Table.ValidateRow`: for each unique-flagged non-primary
column holding a value, scan all existing rows for an equal non-nil
value. -/
def checkUniqueAgainst (t : Table) (cols : List Column) (r : RowMap) : Option Err :=
  match cols with
  | [] => none
  | col :: rest =>
    if col.unique ∧ ¬col.primaryKey then
      match r.lookupEntry col.name with
      | none => checkUniqueAgainst t rest r
      | some v =>
        match t.rowIds.find? (fun rid =>
            match (t.resolve rid).getValue col.name with
            | none => false
            | some ev => goEq (some ev) v) with
        | some _ => some (.uniqueViolation col.name v)
        | none => checkUniqueAgainst t rest r
    else checkUniqueAgainst t rest r

/-- `Table.ValidateRow`. -/
def validateRow (t : Table) (r : RowMap) : Option Err :=
  match validateColumns t.columns r with
  | some e => some e
  | none =>
    match (if t.primaryKey ≠ [] then
            match r.lookupEntry t.primaryKey with
            | some pkv =>
              match t.index.get pkv with
              | some _ => some (Err.pkViolation pkv)
              | none => none
            | none => none
          else none) with
    | some e => some e
    | none => checkUniqueAgainst t t.columns r

/-- `Table.InsertRow`: validate, then append the row and index it.  The
first component is the returned error (`none` on success); the table is
unchanged when an error is returned, as in Go the append happens only
after validation. -/
def insertRow (t : Table) (r : RowMap) : Option Err × Table :=
  match validateRow t r with
  | some e => (some e, t)
  | none =>
    let rid := t.nextId
    let t1 := { t with
      rowIds := t.rowIds ++ [rid]
      store := t.store ++ [(rid, r)]
      nextId := t.nextId + 1 }
    if t.primaryKey ≠ [] then
      match r.lookupEntry t.primaryKey with
      | some pkv => (none, { t1 with index := t1.index.set pkv rid })
      | none => (none, t1)
    else (none, t1)

/-- `Table.FindRowByPrimaryKey`: `nil` when no primary key is declared,
otherwise an index lookup. -/
def findRowByPrimaryKey (t : Table) (pkv : GoVal) : Option Nat :=
  if t.primaryKey = [] then none else t.index.get pkv

/-- `Table.findColumn`. -/
def findColumn (t : Table) (name : GoString) : Option Column :=
  t.columns.find? (fun c => c.name = name)

/-- The update-application loop of `Table.UpdateRow`: apply each update in
turn, mutating the heap cell of `rid`; on the first unknown column or type
failure return the error together with the partially-updated table (the
earlier writes persist, as in Go). -/
def applyUpdates (t : Table) (rid : Nat) : List (GoString × GoVal) → Option Err × Table
  | [] => (none, t)
  | (colName, v) :: rest =>
    match findColumn t colName with
    | none => (some (.columnNotFound colName), t)
    | some col =>
      match validateValueType col v with
      | some e => (some e, t)
      | none =>
        let t' := { t with store := storeSet t.store rid ((t.resolve rid).setValue colName v) }
        applyUpdates t' rid rest

/-- The re-validation loop of `Table.UpdateRow`: every unique-flagged
non-primary column of the (already updated) row `rid` is checked against
all other rows. -/
def recheckUnique (t : Table) (rid : Nat) : List Column → Option Err
  | [] => none
  | col :: rest =>
    if col.unique ∧ ¬col.primaryKey then
      let v := (t.resolve rid).getValue col.name
      match t.rowIds.find? (fun rid' =>
          if rid' = rid then false
          else
            match (t.resolve rid').getValue col.name with
            | none => false
            | some ev => goEq (some ev) v) with
      | some _ => some (.uniqueViolation col.name v)
      | none => recheckUnique t rid rest
    else recheckUnique t rid rest

/-- `Table.UpdateRow`: look the row up by primary key, apply every update
in place, then re-validate the unique constraints.  The table returned
with a constraint error carries the already-applied new values (no
rollback); the index is never touched. -/
def updateRow (t : Table) (pkv : GoVal) (updates : List (GoString × GoVal)) :
    Option Err × Table :=
  match findRowByPrimaryKey t pkv with
  | none => (some (.rowNotFound pkv), t)
  | some rid =>
    match applyUpdates t rid updates with
    | (some e, t') => (some e, t')
    | (none, t') =>
      match recheckUnique t' rid t'.columns with
      | some e => (some e, t')
      | none => (none, t')

/-- `Table.DeleteRow`: requires a declared primary key, removes the row
from the sequence (first pointer match) and the key from the index. -/
def deleteRow (t : Table) (pkv : GoVal) : Option Err × Table :=
  if t.primaryKey = [] then (some .noPrimaryKey, t)
  else
    match findRowByPrimaryKey t pkv with
    | none => (some (.rowNotFound pkv), t)
    | some rid =>
      (none, { t with
        rowIds := t.rowIds.eraseP (fun r => r = rid)
        index := t.index.del pkv })

/-- `Table.SelectRows`: the ordered subsequence of rows satisfying the
predicate (`none` means no filtering). -/
def selectRows (t : Table) (cond : Option (RowMap → Bool)) : List Nat :=
  match cond with
  | none => t.rowIds
  | some p => t.rowIds.filter (fun rid => p (t.resolve rid))

/-- `Table.GetColumnNames`. -/
def getColumnNames (t : Table) : List GoString := t.columns.map (·.name)

/-! ## Persistence codec (Table.ToCSV / TableFromCSV) -/

/-- `engine.formatValue`: Text is quoted (with doubled inner quotes) when
it contains a comma or a quote, Booleans render as `true`/`false`,
Integers in decimal. -/
def formatValue : Value → GoString
  | .vText v =>
    if containsChar v ',' || containsChar v '"' then
      '"' :: (v.flatMap fun c => if c = '"' then ['"', '"'] else [c]) ++ ['"']
    else v
  | .vBool b => if b then gs "true" else gs "false"
  | .vInt i => goFormatInt i

/-- One column descriptor of the schema header:
`name:TYPE[:PRIMARY_KEY][:UNIQUE]`. -/
def colDefRender (col : Column) : GoString :=
  col.name ++ gs ":" ++ col.dataType.render
    ++ (if col.primaryKey then gs ":PRIMARY_KEY" else [])
    ++ (if col.unique then gs ":UNIQUE" else [])

/-- One data line of `Table.ToCSV`: the row's value for each declared
column in order, `nil` as an empty field. -/
def rowLine (t : Table) (rid : Nat) : GoString :=
  joinChar ',' ((getColumnNames t).map fun colName =>
    match (t.resolve rid).getValue colName with
    | none => []
    | some v => formatValue v)

/-- `Table.ToCSV`: the `# SCHEMA: ` header line followed by one line per
row, joined with newlines. -/
def toCSV (t : Table) : GoString :=
  joinChar '\n'
    ((gs "# SCHEMA: " ++ joinChar ',' (t.columns.map colDefRender))
      :: t.rowIds.map (rowLine t))

/-- `engine.parseDataType` (unknown spellings default to TEXT). -/
def parseDataType (s : GoString) : DataType :=
  if s = gs "INTEGER" then .integer
  else if s = gs "TEXT" then .text
  else if s = gs "BOOLEAN" then .boolean
  else .text

/-- `engine.parseValue`: an empty (trimmed) field is `nil`; Integers via
Atoi, Booleans accept `true/1/false/0` case-insensitively, Text loses one
layer of surrounding quotes and doubled-quote escapes. -/
def parseValue (s0 : GoString) (dt : DataType) : Except Err GoVal :=
  let s := goTrimSpace s0
  if s = [] then .ok none
  else
    match dt with
    | .integer =>
      match goAtoi s with
      | some n => .ok (some (.vInt n))
      | none => .error (.atoiFailure s)
    | .boolean =>
      let l := goToLower s
      if l = gs "true" || l = gs "1" then .ok (some (.vBool true))
      else if l = gs "false" || l = gs "0" then .ok (some (.vBool false))
      else .error (.invalidBoolean s)
    | .text =>
      let s' :=
        if 2 ≤ s.length ∧ s.head? = some '"' ∧ s.getLast? = some '"' then
          unescapeQuotes (s.drop 1).dropLast
        else s
      .ok (some (.vText s'))

/-- The quote-aware field scanner of `engine.parseCSVLine`; the Go
program's `inQuotes` flag and one-character lookahead for escaped quotes
are kept as written. -/
def csvAux : GoString → Bool → GoString → List GoString → List GoString
  | [], _, cur, acc => acc ++ [cur]
  | c :: rest, inQ, cur, acc =>
    if c = '"' then
      if inQ then
        match rest with
        | r2 :: rest2 =>
          if r2 = '"' then csvAux rest2 true (cur ++ ['"']) acc
          else csvAux (r2 :: rest2) false cur acc
        | [] => csvAux [] false cur acc
      else csvAux rest true cur acc
    else if c = ',' ∧ inQ = false then csvAux rest false [] (acc ++ [cur])
    else csvAux rest inQ (cur ++ [c]) acc

/-- `engine.parseCSVLine`. -/
def parseCSVLine (line : GoString) : List GoString := csvAux line false [] []

/-- Set constraint flags from the trailing `PRIMARY_KEY`/`UNIQUE` parts of
a column descriptor (unknown parts ignored). -/
def applyFlags (col : Column) : List GoString → Column
  | [] => col
  | f :: fs =>
    let col' :=
      if f = gs "PRIMARY_KEY" then { col with primaryKey := true }
      else if f = gs "UNIQUE" then { col with unique := true }
      else col
    applyFlags col' fs

/-- Parse one column descriptor of the schema header. -/
def parseColDef (colDef0 : GoString) : Except Err Column :=
  let colDef := goTrimSpace colDef0
  match splitChar ':' colDef with
  | p0 :: p1 :: rest =>
    .ok (applyFlags
      { name := p0, dataType := parseDataType p1, primaryKey := false, unique := false }
      rest)
  | _ => .error (.invalidColumnDefinition colDef)

/-- Parse all column descriptors. -/
def parseColDefs : List GoString → Except Err (List Column)
  | [] => .ok []
  | d :: ds =>
    match parseColDef d with
    | .error e => .error e
    | .ok c =>
      match parseColDefs ds with
      | .error e => .error e
      | .ok cs => .ok (c :: cs)

/-- Build a row from one CSV line's fields, zipped positionally onto the
columns (`row.SetValue(col.Name, parsedValue)` in field order). -/
def parseRowValues : List Column → List GoString → RowMap → Except Err RowMap
  | _, [], row => .ok row
  | [], _ :: _, row => .ok row
  | col :: cols, v :: vs, row =>
    match parseValue v col.dataType with
    | .error e => .error (.valueParseError col.name e)
    | .ok pv => parseRowValues cols vs (row.setValue col.name pv)

/-- The data-row loop of `TableFromCSV`: trim each line, skip empty ones,
check the field count, parse the fields and insert through the normal
`InsertRow` path (constraints re-validated on load). -/
def loadRows (columns : List Column) : List GoString → Nat → Table → Option Err × Table
  | [], _, t => (none, t)
  | line :: rest, i, t =>
    let line' := goTrimSpace line
    if line' = [] then loadRows columns rest (i + 1) t
    else
      let values := parseCSVLine line'
      if values.length ≠ columns.length then
        (some (.rowLengthMismatch i values.length columns.length), t)
      else
        match parseRowValues columns values [] with
        | .error e => (some e, t)
        | .ok row =>
          match insertRow t row with
          | (some e, _) => (some (.rowInsertError i e), t)
          | (none, t') => loadRows columns rest (i + 1) t'

/-- `engine.TableFromCSV`. -/
def tableFromCSV (name csvData : GoString) : Except Err Table :=
  match splitChar '\n' csvData with
  | [] => .error .emptyCSV
  | schemaLine :: rest =>
    if goStartsWith schemaLine (gs "# SCHEMA: ") then
      match parseColDefs (splitChar ',' (goDropStart schemaLine (gs "# SCHEMA: "))) with
      | .error e => .error e
      | .ok columns =>
        match loadRows columns rest 1 (newTable name columns) with
        | (some e, _) => .error e
        | (none, t) => .ok t
    else .error (.invalidSchemaLine schemaLine)

/-! ## AST (parser/ast.go) -/

/-- `parser.Expression` (Identifier, QualifiedIdentifier, Literal,
BinaryExpression, StarExpression). -/
inductive Expression where
  | identifier (v : GoString)
  | qualified (table column : GoString)
  | literal (v : GoVal) (ty : DataType)
  | binary (left : Expression) (op : GoString) (right : Expression)
  | star
deriving DecidableEq, Repr

/-- `parser.ColumnDefinition`. -/
structure ColumnDefinition where
  name : GoString
  dataType : DataType
  primaryKey : Bool
  unique : Bool
deriving DecidableEq, Repr

/-- `parser.CreateTableStatement`. -/
structure CreateTableStatement where
  tableName : GoString
  columns : List ColumnDefinition
deriving DecidableEq, Repr

/-- `parser.InsertStatement`. -/
structure InsertStatement where
  tableName : GoString
  values : List Expression
deriving DecidableEq, Repr

/-- `parser.JoinClause`; its `On` binary expression is stored as the
three components of the `*BinaryExpression`. -/
structure JoinClause where
  tableName : GoString
  onLeft : Expression
  onOp : GoString
  onRight : Expression
deriving DecidableEq, Repr

/-- `parser.SelectStatement`. -/
structure SelectStatement where
  tableName : GoString
  columns : List Expression
  whereE : Option Expression
  join : Option JoinClause
deriving DecidableEq, Repr

/-- `parser.UpdateStatement` (`Set` is a Go map; modelled as an
association list in parse order). -/
structure UpdateStatement where
  tableName : GoString
  set : List (GoString × Expression)
  whereE : Option Expression
deriving DecidableEq, Repr

/-- `parser.DeleteStatement`. -/
structure DeleteStatement where
  tableName : GoString
  whereE : Option Expression
deriving DecidableEq, Repr

/-- `parser.Statement`. -/
inductive Statement where
  | createT (s : CreateTableStatement)
  | insertS (s : InsertStatement)
  | selectS (s : SelectStatement)
  | updateS (s : UpdateStatement)
  | deleteS (s : DeleteStatement)
deriving DecidableEq, Repr

/-! ## Query executor (engine/storage.go) -/

/-- `engine.Database`: the `map[string]*Table` as an association list. -/
abbrev Database := List (GoString × Table)

/-- Map read. -/
def dbGet (db : Database) (name : GoString) : Option Table :=
  match db.find? (fun p => p.1 = name) with
  | none => none
  | some p => some p.2

/-- Map write (in Go the table object is mutated in place; here the entry
is replaced). -/
def dbSet : Database → GoString → Table → Database
  | [], name, t => [(name, t)]
  | (n, t') :: rest, name, t =>
    if n = name then (n, t) :: rest else (n, t') :: dbSet rest name t

/-- `engine.compareOrdered`: same-typed Integer and Text operands compare
normally, every other pairing compares equal (0). -/
def cmpStr : GoString → GoString → Int
  | [], [] => 0
  | [], _ :: _ => -1
  | _ :: _, [] => 1
  | a :: as, b :: bs => if a < b then -1 else if b < a then 1 else cmpStr as bs

/-- `Database.compareOrdered`. -/
def compareOrdered (l r : GoVal) : Int :=
  match l with
  | some (.vInt a) =>
    match r with
    | some (.vInt b) => if a < b then -1 else if a > b then 1 else 0
    | _ => 0
  | some (.vText a) =>
    match r with
    | some (.vText b) => cmpStr a b
    | _ => 0
  | _ => 0

/-- `Database.compareValues` (unknown operators are `false`). -/
def compareValues (l r : GoVal) (op : GoString) : Bool :=
  if op = gs "=" then goEq l r
  else if op = gs "!=" then !goEq l r
  else if op = gs ">" then compareOrdered l r > 0
  else if op = gs "<" then compareOrdered l r < 0
  else if op = gs ">=" then compareOrdered l r ≥ 0
  else if op = gs "<=" then compareOrdered l r ≤ 0
  else false

/-- `Database.extractColumnName`. -/
def extractColumnName : Expression → Except Err GoString
  | .identifier v => .ok v
  | .qualified _ c => .ok c
  | _ => .error .notAColumnName

/-- `Database.evaluateExpression`: only literals evaluate. -/
def evaluateExpression : Expression → Except Err GoVal
  | .literal v _ => .ok v
  | .identifier _ => .error .identifierInValueContext
  | _ => .error .unsupportedExpression

/-- `Database.buildBinaryCondition`. -/
def buildBinaryCondition (l : Expression) (op : GoString) (r : Expression) :
    Except Err (RowMap → Bool) :=
  match extractColumnName l with
  | .error e => .error e
  | .ok leftCol =>
    match evaluateExpression r with
    | .error e => .error e
    | .ok rightValue => .ok fun row => compareValues (row.getValue leftCol) rightValue op

/-- `Database.buildWhereCondition`: only a binary expression is
supported. -/
def buildWhereCondition : Expression → Except Err (RowMap → Bool)
  | .binary l op r => buildBinaryCondition l op r
  | _ => .error .unsupportedWhere

/-- The optional-WHERE wrapper used by the executors: absent means the
constant-true condition. -/
def buildCondOpt : Option Expression → Except Err (RowMap → Bool)
  | none => .ok fun _ => true
  | some w => buildWhereCondition w

/-- `engine.ResultSet`. -/
structure ResultSet where
  columns : List GoString
  rows : List (List GoVal)
deriving DecidableEq, Repr

/-- `Database.parseJoinCondition`: equality joins only, both sides plain
or qualified identifiers. -/
def parseJoinCondition (j : JoinClause) : Except Err (GoString × GoString) :=
  if j.onOp ≠ gs "=" then .error .unsupportedJoin
  else
    match extractColumnName j.onLeft with
    | .error e => .error e
    | .ok lc =>
      match extractColumnName j.onRight with
      | .error e => .error e
      | .ok rc => .ok (lc, rc)

/-- `Database.executeJoinSelect`: nested-loop equality join; one output
row per structurally equal pair, left values then right values.  The
where-condition built by `ExecuteSelect` is not consulted here. -/
def executeJoinSelect (db : Database) (leftTable : Table) (j : JoinClause) :
    Except Err ResultSet :=
  match dbGet db j.tableName with
  | none => .error (.joinedTableNotFound j.tableName)
  | some rightTable =>
    match parseJoinCondition j with
    | .error e => .error e
    | .ok (lc, rc) =>
      let rows := leftTable.rowIds.flatMap fun l =>
        rightTable.rowIds.filterMap fun r =>
          if goEq ((leftTable.resolve l).getValue lc) ((rightTable.resolve r).getValue rc) then
            some ((getColumnNames leftTable).map ((leftTable.resolve l).getValue) ++
                  (getColumnNames rightTable).map ((rightTable.resolve r).getValue))
          else none
      .ok { columns := getColumnNames leftTable ++ getColumnNames rightTable
            rows := rows }

/-- The multi-column projection loop of `ExecuteSelect`. -/
def extractNames : List Expression → Except Err (List GoString)
  | [] => .ok []
  | e :: es =>
    match extractColumnName e with
    | .error er => .error er
    | .ok n =>
      match extractNames es with
      | .error er => .error er
      | .ok ns => .ok (n :: ns)

/-- `Database.ExecuteSelect`: the where-condition is built first (errors
propagate even when a JOIN is present), then a JOIN dispatches to
`executeJoinSelect` without using the condition; otherwise the rows are
filtered and projected.  (The star-with-join subcase of the projection is
unreachable here because the join path returned earlier.) -/
def executeSelect (db : Database) (stmt : SelectStatement) : Except Err ResultSet :=
  match dbGet db stmt.tableName with
  | none => .error (.tableNotFound stmt.tableName)
  | some table =>
    match buildCondOpt stmt.whereE with
    | .error e => .error e
    | .ok cond =>
      match stmt.join with
      | some j => executeJoinSelect db table j
      | none =>
        let rows := selectRows table (some cond)
        match (if stmt.columns.length = 1 then
                match stmt.columns with
                | [Expression.star] => Except.ok (getColumnNames table)
                | [e] =>
                  match extractColumnName e with
                  | .error er => .error er
                  | .ok n => .ok [n]
                | _ => .ok []
              else extractNames stmt.columns) with
        | .error e => .error e
        | .ok columnNames =>
          .ok { columns := columnNames
                rows := rows.map fun rid => columnNames.map ((table.resolve rid).getValue) }

/-- The deletion loop of `ExecuteDelete`, stopping at the first error with
the mutations so far kept. -/
def deleteAll (t : Table) : List GoVal → Option Err × Table
  | [] => (none, t)
  | pkv :: rest =>
    match deleteRow t pkv with
    | (some e, t') => (some e, t')
    | (none, t') => deleteAll t' rest

/-- `Database.ExecuteDelete`: collect the primary-key values of the rows
matching the condition (nothing is collected when the table has no
primary key), then delete them one by one. -/
def executeDelete (db : Database) (stmt : DeleteStatement) : Option Err × Database :=
  match dbGet db stmt.tableName with
  | none => (some (.tableNotFound stmt.tableName), db)
  | some table =>
    match buildCondOpt stmt.whereE with
    | .error e => (some e, db)
    | .ok cond =>
      let pks := table.rowIds.filterMap fun rid =>
        if cond (table.resolve rid) ∧ table.primaryKey ≠ [] then
          some ((table.resolve rid).getValue table.primaryKey)
        else none
      match deleteAll table pks with
      | (some e, t') => (some e, dbSet db stmt.tableName t')
      | (none, t') => (none, dbSet db stmt.tableName t')

/-! ## Lexer (parser/lexer.go) -/

/-- `parser.TokenType`. -/
inductive TokenType where
  | tSelect | tInsert | tUpdate | tDelete | tCreate | tTable | tFrom | tWhere
  | tValues | tSet | tInto | tJoin | tOn | tPrimary | tKey | tUnique
  | tIdentifier | tString | tNumber | tTrue | tFalse
  | tEquals | tNotEquals | tGreater | tLess | tGreaterEq | tLessEq
  | tComma | tSemicolon | tLParen | tRParen | tStar | tDot
  | tEOF
deriving DecidableEq, Repr

/-- `parser.Token`. -/
structure Token where
  ttype : TokenType
  literal : GoString
deriving DecidableEq, Repr

/-- `parser.isLetter`: a letter or underscore (ASCII fragment of
`unicode.IsLetter`). -/
def goIsLetter (c : Char) : Bool := c.isAlpha || c = '_'

/-- The identifier-continuation characters of `readIdentifier`. -/
def identChar (c : Char) : Bool := goIsLetter c || c.isDigit

/-- `Lexer.lookupIdent`: keyword lookup on the upper-cased spelling. -/
def lookupIdent (s : GoString) : TokenType :=
  let u := goToUpper s
  if u = gs "SELECT" then .tSelect
  else if u = gs "INSERT" then .tInsert
  else if u = gs "UPDATE" then .tUpdate
  else if u = gs "DELETE" then .tDelete
  else if u = gs "CREATE" then .tCreate
  else if u = gs "TABLE" then .tTable
  else if u = gs "FROM" then .tFrom
  else if u = gs "WHERE" then .tWhere
  else if u = gs "VALUES" then .tValues
  else if u = gs "SET" then .tSet
  else if u = gs "INTO" then .tInto
  else if u = gs "JOIN" then .tJoin
  else if u = gs "ON" then .tOn
  else if u = gs "PRIMARY" then .tPrimary
  else if u = gs "KEY" then .tKey
  else if u = gs "UNIQUE" then .tUnique
  else if u = gs "TRUE" then .tTrue
  else if u = gs "FALSE" then .tFalse
  else .tIdentifier

/-- `Lexer.NextToken`: skip white space, then emit one token and the
remaining input.  Unknown single characters become one-character
identifiers; an unterminated string literal consumes to end of input. -/
def nextTok (cs0 : GoString) : Token × GoString :=
  let cs := cs0.dropWhile fun c => c = ' ' || c = '\t' || c = '\n' || c = '\r'
  match cs with
  | [] => (⟨.tEOF, []⟩, [])
  | '=' :: rest => (⟨.tEquals, gs "="⟩, rest)
  | '!' :: '=' :: rest => (⟨.tNotEquals, gs "!="⟩, rest)
  | '!' :: rest => (⟨.tIdentifier, gs "!"⟩, rest)
  | '>' :: '=' :: rest => (⟨.tGreaterEq, gs ">="⟩, rest)
  | '>' :: rest => (⟨.tGreater, gs ">"⟩, rest)
  | '<' :: '=' :: rest => (⟨.tLessEq, gs "<="⟩, rest)
  | '<' :: rest => (⟨.tLess, gs "<"⟩, rest)
  | ',' :: rest => (⟨.tComma, gs ","⟩, rest)
  | ';' :: rest => (⟨.tSemicolon, gs ";"⟩, rest)
  | '(' :: rest => (⟨.tLParen, gs "("⟩, rest)
  | ')' :: rest => (⟨.tRParen, gs ")"⟩, rest)
  | '*' :: rest => (⟨.tStar, gs "*"⟩, rest)
  | '.' :: rest => (⟨.tDot, gs "."⟩, rest)
  | c :: rest =>
    if goIsLetter c then
      let ident := cs.takeWhile identChar
      (⟨lookupIdent ident, ident⟩, cs.dropWhile identChar)
    else if c.isDigit then
      (⟨.tNumber, cs.takeWhile Char.isDigit⟩, cs.dropWhile Char.isDigit)
    else if c = '\'' then
      let content := rest.takeWhile (· ≠ '\'')
      match rest.dropWhile (· ≠ '\'') with
      | '\'' :: r => (⟨.tString, content⟩, r)
      | _ => (⟨.tString, content⟩, [])
    else (⟨.tIdentifier, [c]⟩, rest)

/-- Run the lexer to the end-of-input sentinel.  The fuel argument only
bounds the recursion; `input.length + 2` is always enough because every
token before EOF consumes at least one character. -/
def tokenize : Nat → GoString → List Token
  | 0, _ => []
  | fuel + 1, cs =>
    let (t, rest) := nextTok cs
    if t.ttype = .tEOF then [t] else t :: tokenize fuel rest

/-! ## Parser (parser/parser.go)

The Go parser holds a current and a peek token and pulls further tokens
from the lexer; once the input is exhausted the lexer returns EOF
forever.  The state is modelled as the list of not-yet-consumed tokens
(`current` is the head), padded with EOF when read past the end.  The
diagnostic `errors` slice only accumulates messages and never influences
a returned value, so it is not carried. -/

/-- The remaining-token state of the parser. -/
abbrev PState := List Token

/-- The current token (`p.currentToken`). -/
def curTok (st : PState) : Token := st.headD ⟨.tEOF, []⟩

/-- The peek token (`p.peekToken`). -/
def peekTok (st : PState) : Token := (st.drop 1).headD ⟨.tEOF, []⟩

/-- `p.nextToken`. -/
def advanceTok (st : PState) : PState := st.drop 1

/-- `p.peekTokenIs`. -/
def peekIs (st : PState) (t : TokenType) : Bool := (peekTok st).ttype = t

/-- `p.expectPeek`: advance on a match, otherwise record a diagnostic and
stay put. -/
def expectPeek (st : PState) (t : TokenType) : Bool × PState :=
  if peekIs st t then (true, advanceTok st) else (false, st)

/-- `Parser.parseDataType`. -/
def parseDataTypeTok (st : PState) : Except String DataType × PState :=
  match expectPeek st .tIdentifier with
  | (false, st') => (.error "expected data type", st')
  | (true, st') =>
    let lit := (curTok st').literal
    if lit = gs "INTEGER" || lit = gs "INT" then (.ok .integer, st')
    else if lit = gs "TEXT" || lit = gs "VARCHAR" then (.ok .text, st')
    else if lit = gs "BOOLEAN" || lit = gs "BOOL" then (.ok .boolean, st')
    else (.error "unknown data type", st')

/-- `Parser.parseColumnDefinitions`: the column-list loop.  A mismatch
inside a definition `break`s out of the loop, keeping the columns
accumulated so far — it does not fail the surrounding statement. -/
def parseColumnDefs : Nat → PState → List ColumnDefinition × PState
  | 0, st => ([], st)
  | fuel + 1, st =>
    if peekIs st .tRParen || peekIs st .tEOF then ([], st)
    else
      match expectPeek st .tIdentifier with
      | (false, st1) => ([], st1)
      | (true, st1) =>
        let name := (curTok st1).literal
        match parseDataTypeTok st1 with
        | (.error _, st2) => ([], st2)
        | (.ok dt, st2) =>
          let (pk, uq, st3) :=
            if peekIs st2 .tPrimary then
              let stp := advanceTok st2
              match expectPeek stp .tKey with
              | (true, stq) => (true, false, stq)
              | (false, stq) => (false, false, stq)
            else if peekIs st2 .tUnique then (false, true, advanceTok st2)
            else (false, false, st2)
          let col : ColumnDefinition := ⟨name, dt, pk, uq⟩
          if !peekIs st3 .tRParen then
            match expectPeek st3 .tComma with
            | (false, st4) => ([col], st4)
            | (true, st4) =>
              let (restCols, st5) := parseColumnDefs fuel st4
              (col :: restCols, st5)
          else
            let (restCols, st5) := parseColumnDefs fuel st3
            (col :: restCols, st5)

/-- `Parser.parseCreateStatement`. -/
def parseCreate (st : PState) : Except String Statement × PState :=
  match expectPeek st .tTable with
  | (false, st1) => (.error "expected TABLE after CREATE", st1)
  | (true, st1) =>
    match expectPeek st1 .tIdentifier with
    | (false, st2) => (.error "expected table name after TABLE", st2)
    | (true, st2) =>
      let name := (curTok st2).literal
      match expectPeek st2 .tLParen with
      | (false, st3) => (.error "expected ( after table name", st3)
      | (true, st3) =>
        let (cols, st4) := parseColumnDefs (st3.length + 1) st3
        match expectPeek st4 .tRParen with
        | (false, st5) => (.error "expected ) after column definitions", st5)
        | (true, st5) => (.ok (.createT ⟨name, cols⟩), st5)

/-- `Parser.parsePrimaryExpression` (dispatches on the peek token). -/
def parsePrimary (st : PState) : Except String Expression × PState :=
  match (peekTok st).ttype with
  | .tIdentifier =>
    let st1 := advanceTok st
    let idv := (curTok st1).literal
    if peekIs st1 .tDot then
      let st2 := advanceTok st1
      match expectPeek st2 .tIdentifier with
      | (false, st3) => (.error "expected identifier after dot", st3)
      | (true, st3) => (.ok (.qualified idv (curTok st3).literal), st3)
    else (.ok (.identifier idv), st1)
  | .tString =>
    let st1 := advanceTok st
    (.ok (.literal (some (.vText (curTok st1).literal)) .text), st1)
  | .tNumber =>
    let st1 := advanceTok st
    match goAtoi (curTok st1).literal with
    | some n => (.ok (.literal (some (.vInt n)) .integer), st1)
    | none => (.error "invalid number literal", st1)
  | .tTrue =>
    let st1 := advanceTok st
    (.ok (.literal (some (.vBool true)) .boolean), st1)
  | .tFalse =>
    let st1 := advanceTok st
    (.ok (.literal (some (.vBool false)) .boolean), st1)
  | _ => (.error "unexpected token in expression", st)

/-- `Parser.parseExpression`: a primary, optionally followed by one
binary comparison. -/
def parseExpr (st : PState) : Except String Expression × PState :=
  match parsePrimary st with
  | (.error e, st1) => (.error e, st1)
  | (.ok left, st1) =>
    if peekIs st1 .tEquals || peekIs st1 .tNotEquals || peekIs st1 .tGreater ||
        peekIs st1 .tLess || peekIs st1 .tGreaterEq || peekIs st1 .tLessEq then
      let st2 := advanceTok st1
      let op := (curTok st2).literal
      match parsePrimary st2 with
      | (.error e, st3) => (.error e, st3)
      | (.ok right, st3) => (.ok (.binary left op right), st3)
    else (.ok left, st1)

/-- `Parser.parseExpressionList`: expressions up to `endT`, a parse
failure `break`ing with the list so far. -/
def parseExprList : Nat → TokenType → PState → List Expression × PState
  | 0, _, st => ([], st)
  | fuel + 1, endT, st =>
    if peekIs st endT || peekIs st .tEOF then ([], st)
    else
      match parseExpr st with
      | (.error _, st1) => ([], st1)
      | (.ok e, st1) =>
        if !peekIs st1 endT then
          match expectPeek st1 .tComma with
          | (false, st2) => ([e], st2)
          | (true, st2) =>
            let (rest, st3) := parseExprList fuel endT st2
            (e :: rest, st3)
        else
          let (rest, st3) := parseExprList fuel endT st1
          (e :: rest, st3)

/-- `Parser.parseSelectColumns`. -/
def parseSelectColumns (st : PState) : List Expression × PState :=
  if peekIs st .tStar then ([.star], advanceTok st)
  else parseExprList (st.length + 1) .tFrom st

/-- `Parser.parseJoinClause` (called with JOIN as the peek token). -/
def parseJoinClauseTok (st : PState) : Except String JoinClause × PState :=
  let st1 := advanceTok st
  match expectPeek st1 .tIdentifier with
  | (false, st2) => (.error "expected table name after JOIN", st2)
  | (true, st2) =>
    let name := (curTok st2).literal
    match expectPeek st2 .tOn with
    | (false, st3) => (.error "expected ON after JOIN table", st3)
    | (true, st3) =>
      match parseExpr st3 with
      | (.error e, st4) => (.error e, st4)
      | (.ok expr, st4) =>
        match expr with
        | .binary l op r => (.ok ⟨name, l, op, r⟩, st4)
        | _ => (.error "expected binary expression in ON clause", st4)

/-- `Parser.parseSelectStatement`. -/
def parseSelect (st : PState) : Except String Statement × PState :=
  let (cols, st1) := parseSelectColumns st
  match expectPeek st1 .tFrom with
  | (false, st2) => (.error "expected FROM after SELECT columns", st2)
  | (true, st2) =>
    match expectPeek st2 .tIdentifier with
    | (false, st3) => (.error "expected table name after FROM", st3)
    | (true, st3) =>
      let name := (curTok st3).literal
      match (if peekIs st3 .tJoin then
              match parseJoinClauseTok st3 with
              | (.error e, st4) => ((.error e : Except String (Option JoinClause)), st4)
              | (.ok j, st4) => (.ok (some j), st4)
            else ((.ok none : Except String (Option JoinClause)), st3)) with
      | (.error e, st4) => (.error e, st4)
      | (.ok jopt, st4) =>
        if peekIs st4 .tWhere then
          let st5 := advanceTok st4
          match parseExpr st5 with
          | (.error e, st6) => (.error e, st6)
          | (.ok w, st6) => (.ok (.selectS ⟨name, cols, some w, jopt⟩), st6)
        else (.ok (.selectS ⟨name, cols, none, jopt⟩), st4)

/-- `Parser.parseInsertStatement`. -/
def parseInsert (st : PState) : Except String Statement × PState :=
  match expectPeek st .tInto with
  | (false, st1) => (.error "expected INTO after INSERT", st1)
  | (true, st1) =>
    match expectPeek st1 .tIdentifier with
    | (false, st2) => (.error "expected table name after INTO", st2)
    | (true, st2) =>
      let name := (curTok st2).literal
      match expectPeek st2 .tValues with
      | (false, st3) => (.error "expected VALUES after table name", st3)
      | (true, st3) =>
        match expectPeek st3 .tLParen with
        | (false, st4) => (.error "expected ( after VALUES", st4)
        | (true, st4) =>
          let (vals, st5) := parseExprList (st4.length + 1) .tRParen st4
          match expectPeek st5 .tRParen with
          | (false, st6) => (.error "expected ) after values", st6)
          | (true, st6) => (.ok (.insertS ⟨name, vals⟩), st6)

/-- `Parser.parseSetClause` (the Go map write is kept as an association
list in parse order). -/
def parseSetClause : Nat → PState → List (GoString × Expression) × PState
  | 0, st => ([], st)
  | fuel + 1, st =>
    if peekIs st .tWhere || peekIs st .tEOF then ([], st)
    else
      match expectPeek st .tIdentifier with
      | (false, st1) => ([], st1)
      | (true, st1) =>
        let colName := (curTok st1).literal
        match expectPeek st1 .tEquals with
        | (false, st2) => ([], st2)
        | (true, st2) =>
          match parseExpr st2 with
          | (.error _, st3) => ([], st3)
          | (.ok e, st3) =>
            if !peekIs st3 .tWhere then
              match expectPeek st3 .tComma with
              | (false, st4) => ([(colName, e)], st4)
              | (true, st4) =>
                let (rest, st5) := parseSetClause fuel st4
                ((colName, e) :: rest, st5)
            else
              let (rest, st5) := parseSetClause fuel st3
              ((colName, e) :: rest, st5)

/-- `Parser.parseUpdateStatement`. -/
def parseUpdate (st : PState) : Except String Statement × PState :=
  match expectPeek st .tIdentifier with
  | (false, st1) => (.error "expected table name after UPDATE", st1)
  | (true, st1) =>
    let name := (curTok st1).literal
    match expectPeek st1 .tSet with
    | (false, st2) => (.error "expected SET after table name", st2)
    | (true, st2) =>
      let (setList, st3) := parseSetClause (st2.length + 1) st2
      if peekIs st3 .tWhere then
        let st4 := advanceTok st3
        match parseExpr st4 with
        | (.error e, st5) => (.error e, st5)
        | (.ok w, st5) => (.ok (.updateS ⟨name, setList, some w⟩), st5)
      else (.ok (.updateS ⟨name, setList, none⟩), st3)

/-- `Parser.parseDeleteStatement`. -/
def parseDelete (st : PState) : Except String Statement × PState :=
  match expectPeek st .tFrom with
  | (false, st1) => (.error "expected FROM after DELETE", st1)
  | (true, st1) =>
    match expectPeek st1 .tIdentifier with
    | (false, st2) => (.error "expected table name after FROM", st2)
    | (true, st2) =>
      let name := (curTok st2).literal
      if peekIs st2 .tWhere then
        let st3 := advanceTok st2
        match parseExpr st3 with
        | (.error e, st4) => (.error e, st4)
        | (.ok w, st4) => (.ok (.deleteS ⟨name, some w⟩), st4)
      else (.ok (.deleteS ⟨name, none⟩), st2)

/-- `Parser.ParseStatement`: dispatch on the current token. -/
def parseStatementTokens (st : PState) : Except String Statement :=
  match (curTok st).ttype with
  | .tSelect => (parseSelect st).1
  | .tInsert => (parseInsert st).1
  | .tUpdate => (parseUpdate st).1
  | .tDelete => (parseDelete st).1
  | .tCreate => (parseCreate st).1
  | _ => .error "unexpected token"

/-- End-to-end parse of a raw statement text: lex, then parse. -/
def parseStatementStr (s : GoString) : Except String Statement :=
  parseStatementTokens (tokenize (s.length + 2) s)

/-! ## Building tables by successful inserts

`buildTable` constructs a table the way the running system does: a fresh
`NewTable` followed by one `InsertRow` per row, each row assembled
positionally from a list of values exactly as `TableFromCSV` assembles a
parsed line. -/

/-- Assemble a row positionally (`row.SetValue(col.Name, v)` in column
order), the same construction `parseRowValues` performs. -/
def buildRow : List Column → List GoVal → RowMap → RowMap
  | _, [], r => r
  | [], _ :: _, r => r
  | col :: cols, v :: vs, r => buildRow cols vs (r.setValue col.name v)

/-- Insert a list of value-rows one by one, stopping at the first
error. -/
def insertAll (t : Table) : List (List GoVal) → Option Err × Table
  | [] => (none, t)
  | vals :: rest =>
    match insertRow t (buildRow t.columns vals []) with
    | (some e, t') => (some e, t')
    | (none, t') => insertAll t' rest

/-- A table reached from `NewTable` by successful inserts. -/
def buildTable (name : GoString) (cols : List Column) (rows : List (List GoVal)) :
    Option Err × Table :=
  insertAll (newTable name cols) rows

/-! ## CSV-cleanliness (sufficient conditions for a faithful round trip) -/

/-- Letters, digits and underscore: characters that survive the codec
untouched (no comma/colon/quote/newline interplay, no trimming). -/
def cleanChar (c : Char) : Bool := c.isAlpha || c.isDigit || c = '_'

/-- A non-empty string of clean characters. -/
def CleanStr (s : GoString) : Prop := s ≠ [] ∧ ∀ c ∈ s, cleanChar c

/-- A value the codec round-trips: non-nil, with clean Text. -/
def CleanVal : GoVal → Prop
  | none => False
  | some (.vInt _) => True
  | some (.vBool _) => True
  | some (.vText s) => CleanStr s

/-- Positional well-typedness of a value-row against the columns. -/
def TypedRow (cols : List Column) (vals : List GoVal) : Prop :=
  List.Forall₂ (fun c v => validateValueType c v = none) cols vals

/-- The CSV field a value serialises to (`""` for `nil`). -/
def fieldOf : GoVal → GoString
  | none => []
  | some v => formatValue v

/-- The CSV line a value-row serialises to. -/
def lineOf (vals : List GoVal) : GoString := joinChar ',' (vals.map fieldOf)

/-- Every row pointer in the sequence and in the store heap is below the
allocation counter (true of every table reachable from `NewTable`). -/
def StoreBounded (t : Table) : Prop :=
  (∀ rid ∈ t.rowIds, rid < t.nextId) ∧ (∀ p ∈ t.store, p.1 < t.nextId)

/-- Prefix the first split field with the scanner's current
accumulator. -/
def consField (cur : GoString) : List GoString → List GoString
  | [] => [cur]
  | p :: ps => (cur ++ p) :: ps

instance : DecidablePred CleanStr := fun s =>
  decidable_of_iff (s ≠ [] ∧ ∀ c ∈ s, cleanChar c) Iff.rfl

instance : DecidablePred CleanVal := fun v => by
  cases v with
  | none => exact .isFalse (fun h => h)
  | some w =>
    cases w with
    | vInt i => exact .isTrue trivial
    | vText s => exact inferInstanceAs (Decidable (CleanStr s))
    | vBool b => exact .isTrue trivial

/-! ## Concrete fixtures for witnesses and counterexamples -/

/-- Columns covering all three data types and both constraint flags. -/
def exCols : List Column :=
  [⟨gs "id", .integer, true, false⟩,
   ⟨gs "name", .text, false, true⟩,
   ⟨gs "flag", .boolean, false, false⟩]

/-- Clean sample rows. -/
def exRow1 : List GoVal := [some (.vInt 1), some (.vText (gs "Alice")), some (.vBool true)]

/-- A second clean sample row. -/
def exRow2 : List GoVal := [some (.vInt 2), some (.vText (gs "Bob")), some (.vBool false)]

/-- A clean two-row table over `exCols`. -/
def exGood : Table := (buildTable (gs "users") exCols [exRow1, exRow2]).2

/-- A row whose Text value carries a leading space. -/
def exBadRow : List GoVal := [some (.vInt 1), some (.vText (gs " a")), some (.vBool true)]

/-- The same table but with a leading-space Text value. -/
def exBad : Table := (buildTable (gs "users") exCols [exBadRow]).2

/-- A single-column primary-keyed table. -/
def exPkTable : Table := newTable (gs "u") [⟨gs "id", .integer, true, false⟩]

/-- A row with primary-key value 1. -/
def exPkRow : RowMap := [(gs "id", some (.vInt 1))]

/-- `exPkTable` after inserting `exPkRow`. -/
def exPkTable1 : Table := (insertRow exPkTable exPkRow).2

/-- A one-row table without a primary key. -/
def exNoPk : Table :=
  (insertRow (newTable (gs "logs") [⟨gs "msg", .text, false, false⟩])
    [(gs "msg", some (.vText (gs "hello")))]).2

/-- A two-row table with a unique Text column next to the primary key. -/
def exUniq : Table :=
  (buildTable (gs "acct")
    [⟨gs "id", .integer, true, false⟩, ⟨gs "email", .text, false, true⟩]
    [[some (.vInt 1), some (.vText (gs "a"))],
     [some (.vInt 2), some (.vText (gs "b"))]]).2

/-- An update that copies row 2's unique value onto row 1. -/
def exUpd : List (GoString × GoVal) := [(gs "email", some (.vText (gs "b")))]

/-- `exUniq` after the constraint-violating update (the mutation that the
failing `UpdateRow` leaves behind). -/
def exUniqAfter : Table := (updateRow exUniq (some (.vInt 1)) exUpd).2

/-- A primary-key-changing update for the stale-index example. -/
def exPkUpd : List (GoString × GoVal) := [(exPkTable1.primaryKey, some (.vInt 2))]

/-- `exPkTable1` after updating its primary-key value from 1 to 2. -/
def exPkAfter : Table := (updateRow exPkTable1 (some (.vInt 1)) exPkUpd).2

/-- A one-column, one-row left table for join examples. -/
def exJoinA : Table :=
  (insertRow (newTable (gs "a") [⟨gs "x", .integer, false, false⟩])
    [(gs "x", some (.vInt 1))]).2

/-- A one-column, one-row right table for join examples. -/
def exJoinB : Table :=
  (insertRow (newTable (gs "b") [⟨gs "y", .integer, false, false⟩])
    [(gs "y", some (.vInt 1))]).2

/-- A two-table database for join examples. -/
def exJoinDb : Database := [(gs "a", exJoinA), (gs "b", exJoinB)]

/-- A `SELECT * FROM a JOIN b ON x = y` statement with a configurable
WHERE clause. -/
def exJoinStmt (w : Option Expression) : SelectStatement :=
  ⟨gs "a", [.star], w, some ⟨gs "b", .identifier (gs "x"), gs "=", .identifier (gs "y")⟩⟩

/-- A filter table for the predicate claims: all three data types with a
few rows. -/
def exSel : Table :=
  (buildTable (gs "people")
    [⟨gs "id", .integer, true, false⟩, ⟨gs "name", .text, false, false⟩,
     ⟨gs "age", .integer, false, false⟩, ⟨gs "flag", .boolean, false, false⟩]
    [[some (.vInt 1), some (.vText (gs "Alice")), some (.vInt 25), some (.vBool true)],
     [some (.vInt 2), some (.vText (gs "Bob")), some (.vInt 30), some (.vBool false)]]).2

/-- A single-table database holding `t` under its own name. -/
def singleDb (t : Table) : Database := [(t.name, t)]

/-- A `SELECT * FROM t WHERE col op literal` statement. -/
def whereSelect (tn col op : GoString) (lit : GoVal) (ty : DataType) : SelectStatement :=
  ⟨tn, [.star], some (.binary (.identifier col) op (.literal lit ty)), none⟩

/-- Whether `compareOrdered` can distinguish the two operands: both
Integers or both Text. -/
def ordComparable : GoVal → GoVal → Bool
  | some (.vInt _), some (.vInt _) => true
  | some (.vText _), some (.vText _) => true
  | _, _ => false

/-- A `SELECT * FROM la JOIN ra ON x op y` statement. -/
def joinSelect (la ra x y op : GoString) : SelectStatement :=
  ⟨la, [.star], none, some ⟨ra, .identifier x, op, .identifier y⟩⟩

/-! # Theorems

Helper lemmas first, then one theorem per claim (with its witness or
counterexample where applicable). -/

/-- `goEq` is reflexive. -/
theorem goEq_self (a : GoVal) : goEq a a = true := by simp [goEq]

/-- Reading an index key right after writing it finds the written row. -/
theorem pkIndexGet_set_self (idx : PkIndex) (k : GoVal) (i : Nat) :
    (idx.set k i).get k = some i := by
  induction idx with
  | nil => simp [PkIndex.set, PkIndex.get, List.find?, goEq_self]
  | cons p rest ih =>
    by_cases h : goEq p.1 k
    · simp [PkIndex.set, h, PkIndex.get, List.find?]
    · simpa [PkIndex.set, h, PkIndex.get, List.find?] using ih

/-- A successful insert passed validation. -/
theorem insertRow_ok_validate (t t' : Table) (r : RowMap)
    (h : insertRow t r = (none, t')) : validateRow t r = none := by
  unfold insertRow at h
  cases hv : validateRow t r with
  | some e => rw [hv] at h; simp at h
  | none => rfl

/-- The shape of the table produced by a successful insert whose row
carries a primary-key value. -/
theorem insertRow_ok_shape (t t' : Table) (r : RowMap) (v : GoVal)
    (hpk : t.primaryKey ≠ []) (hv : r.lookupEntry t.primaryKey = some v)
    (h : insertRow t r = (none, t')) :
    t' = { t with rowIds := t.rowIds ++ [t.nextId],
                  store := t.store ++ [(t.nextId, r)],
                  nextId := t.nextId + 1,
                  index := t.index.set v t.nextId } := by
  unfold insertRow at h
  cases hval : validateRow t r with
  | some e => rw [hval] at h; simp at h
  | none =>
    rw [hval] at h
    simp only [hpk, ne_eq, not_false_eq_true, if_true, hv, ite_true, Prod.mk.injEq] at h
    exact h.2.symm

/-- C1: with a declared primary key and a row already inserted under
primary-key value `v`, inserting a second schema-valid row whose
primary-key value is again `v` fails with the primary-key-violation
ConstraintError, and the table (hence its row sequence and count) is
exactly the one after the first insert. -/
theorem claim1_pk_duplicate (t t1 : Table) (r1 r2 : RowMap) (v : GoVal)
    (hpk : t.primaryKey ≠ [])
    (hv1 : r1.lookupEntry t.primaryKey = some v)
    (h1 : insertRow t r1 = (none, t1))
    (hcols : validateColumns t1.columns r2 = none)
    (hv2 : r2.lookupEntry t1.primaryKey = some v) :
    insertRow t1 r2 = (some (.pkViolation v), t1) := by
  have hshape := insertRow_ok_shape t t1 r1 v hpk hv1 h1
  have hp : t1.primaryKey = t.primaryKey := by rw [hshape]
  have hi : t1.index = t.index.set v t.nextId := by rw [hshape]
  have hvr : validateRow t1 r2 = some (.pkViolation v) := by
    unfold validateRow
    rw [hcols]
    rw [hp] at hv2 ⊢
    simp only [hpk, if_true, ite_not, if_neg (by simp [hpk] : ¬t.primaryKey = []), hv2]
    rw [hi, pkIndexGet_set_self]
    simp
  unfold insertRow
  rw [hvr]

/-- Witness for C1 at a concrete one-column table. -/
theorem claim1_pk_duplicate_witness :
    insertRow exPkTable1 exPkRow = (some (.pkViolation (some (.vInt 1))), exPkTable1) :=
  claim1_pk_duplicate exPkTable exPkTable1 exPkRow exPkRow (some (.vInt 1))
    (by decide) (by decide) (by decide) (by decide) (by decide)

/-- C3 (code evaluated at the failing input): inserting a row whose
unique-flagged Text column holds Null is rejected by type validation with
a SchemaError — it does not succeed as the claim (and the spec's
"or be Null" invariant) requires, because a nil interface value fails the
`value.(string)` assertion in `validateValueType`. -/
theorem claim3_null_unique_insert_rejected :
    insertRow (newTable (gs "t") [⟨gs "email", .text, false, true⟩]) [(gs "email", none)]
      = (some (.typeMismatch (gs "email")),
         newTable (gs "t") [⟨gs "email", .text, false, true⟩]) := by decide

/-- Writing back the table found under a name leaves the database
unchanged. -/
theorem dbSet_self (db : Database) (n : GoString) (t : Table)
    (h : dbGet db n = some t) : dbSet db n t = db := by
  induction db with
  | nil => simp [dbGet] at h
  | cons p rest ih =>
    by_cases hp : p.1 = n
    · simp [dbGet, List.find?, hp] at h
      simp [dbSet, hp, ← h]
      rw [← hp]
    · simp [dbGet, List.find?, hp] at h
      simp [dbSet, hp, ih h]

/-- C4 counterexample: executing `DELETE FROM logs` against a one-row
table without a primary key returns success and deletes nothing — the
claim says it must fail with a SchemaError. -/
theorem claim4_counterexample :
    executeDelete [(gs "logs", exNoPk)] ⟨gs "logs", none⟩ = (none, [(gs "logs", exNoPk)]) ∧
    exNoPk.rowIds ≠ [] := by decide

/-- C4 (amended): for a table without a primary key, a DELETE whose WHERE
clause is absent or supported silently succeeds as a no-op: no error is
surfaced and the database (hence the table's row sequence) is unchanged,
because `ExecuteDelete` only collects primary-key values and so never
reaches `DeleteRow`'s SchemaError. -/
theorem claim4_delete_without_pk_is_noop (db : Database) (stmt : DeleteStatement) (t : Table)
    (hget : dbGet db stmt.tableName = some t)
    (hpk : t.primaryKey = [])
    (hcond : ∃ c, buildCondOpt stmt.whereE = .ok c) :
    executeDelete db stmt = (none, db) := by
  obtain ⟨c, hc⟩ := hcond
  unfold executeDelete
  rw [hget, hc]
  have hpks : (t.rowIds.filterMap fun rid =>
      if c (t.resolve rid) ∧ t.primaryKey ≠ [] then
        some ((t.resolve rid).getValue t.primaryKey)
      else none) = [] := by
    simp [hpk]
  simp only [hpks, deleteAll, dbSet_self db stmt.tableName t hget]

/-- Witness for C4's amended theorem at the concrete no-primary-key
table. -/
theorem claim4_delete_without_pk_is_noop_witness :
    executeDelete [(gs "logs", exNoPk)] ⟨gs "logs", none⟩ = (none, [(gs "logs", exNoPk)]) :=
  claim4_delete_without_pk_is_noop _ _ exNoPk (by decide) (by decide) ⟨_, rfl⟩

/-- C5 counterexample: the malformed input
`CREATE TABLE t (a INTEGER, b )` — the definition of column `b` is
structurally incomplete — parses with no error to a partial AST that
silently drops `b`, keeping only column `a`. -/
theorem claim5_counterexample :
    parseStatementStr (gs "CREATE TABLE t (a INTEGER, b )")
      = .ok (.createT ⟨gs "t", [⟨gs "a", .integer, false, false⟩]⟩) := by decide

/-- C5 (amended): `ParseStatement` returns either a statement or an
error, but a returned statement need not cover the whole input: for every
table name and column names, the malformed token stream
`CREATE TABLE tn ( a INTEGER , b )` parses successfully to a CREATE TABLE
with the single column `a`, the failed definition of `b` being silently
dropped because `parseColumnDefinitions` breaks out of its loop with the
next token already at `)`. -/
theorem claim5_partial_ast (tn a b : GoString) :
    parseStatementTokens
      [⟨.tCreate, gs "CREATE"⟩, ⟨.tTable, gs "TABLE"⟩, ⟨.tIdentifier, tn⟩,
       ⟨.tLParen, gs "("⟩, ⟨.tIdentifier, a⟩, ⟨.tIdentifier, gs "INTEGER"⟩,
       ⟨.tComma, gs ","⟩, ⟨.tIdentifier, b⟩, ⟨.tRParen, gs ")"⟩, ⟨.tEOF, []⟩]
      = .ok (.createT ⟨tn, [⟨a, .integer, false, false⟩]⟩) := by rfl

/-- C10 counterexample: for a SELECT with both JOIN and WHERE, the result
does not always equal that of the same statement with the WHERE removed:
an unsupported WHERE expression (a bare identifier) makes the join query
fail, while the statement without WHERE succeeds. -/
theorem claim10_counterexample :
    executeSelect exJoinDb (exJoinStmt (some (.identifier (gs "z")))) = .error .unsupportedWhere ∧
    executeSelect exJoinDb (exJoinStmt none)
      = .ok ⟨[gs "x", gs "y"], [[some (.vInt 1), some (.vInt 1)]]⟩ := by decide

/-- C10 (amended): for a SELECT with a JOIN whose WHERE clause builds
successfully (a supported binary comparison), the executor ignores the
WHERE entirely: the result equals that of the same statement with the
WHERE removed, because the join path never consults the built
condition. -/
theorem claim10_join_ignores_where (db : Database) (stmt : SelectStatement)
    (j : JoinClause) (hj : stmt.join = some j)
    (hw : ∃ c, buildCondOpt stmt.whereE = .ok c) :
    executeSelect db stmt = executeSelect db { stmt with whereE := none } := by
  obtain ⟨c, hc⟩ := hw
  unfold executeSelect
  cases hget : dbGet db stmt.tableName with
  | none => simp [hget]
  | some table =>
    simp only [hget, hc, hj]
    simp [buildCondOpt]

/-- Witness for C10's amended theorem: a WHERE that would exclude every
row is ignored on the join path. -/
theorem claim10_join_ignores_where_witness :
    executeSelect exJoinDb
      (exJoinStmt (some (.binary (.identifier (gs "x")) (gs "=")
        (.literal (some (.vInt 999)) .integer))))
      = executeSelect exJoinDb (exJoinStmt none) :=
  claim10_join_ignores_where _ _ _ rfl ⟨_, rfl⟩

/-- Reading a row map right after writing a column returns the written
value. -/
theorem getValue_setValue_self (r : RowMap) (c : GoString) (v : GoVal) :
    (r.setValue c v).getValue c = v := by
  induction r with
  | nil => simp [RowMap.setValue, RowMap.getValue, RowMap.lookupEntry, List.find?]
  | cons p rest ih =>
    by_cases hp : p.1 = c
    · simp [RowMap.setValue, hp, RowMap.getValue, RowMap.lookupEntry, List.find?]
    · simpa [RowMap.setValue, hp, RowMap.getValue, RowMap.lookupEntry, List.find?] using ih

/-- Looking a row id up right after overwriting its heap cell returns the
new contents. -/
theorem storeSet_find_self (st : List (Nat × RowMap)) (rid : Nat) (r : RowMap) :
    (storeSet st rid r).find? (fun p => p.1 = rid) = some (rid, r) := by
  induction st with
  | nil => simp [storeSet, List.find?]
  | cons p rest ih =>
    by_cases hp : p.1 = rid
    · simp [storeSet, hp, List.find?]
    · simpa [storeSet, hp, List.find?] using ih

/-- `applyUpdates` touches only the store: all other table fields are
unchanged whether or not it fails. -/
theorem applyUpdates_frame (t : Table) (rid : Nat) (us : List (GoString × GoVal)) :
    (applyUpdates t rid us).2.columns = t.columns ∧
    (applyUpdates t rid us).2.rowIds = t.rowIds ∧
    (applyUpdates t rid us).2.index = t.index ∧
    (applyUpdates t rid us).2.primaryKey = t.primaryKey := by
  induction us generalizing t with
  | nil => simp [applyUpdates]
  | cons u rest ih =>
    obtain ⟨cn, v⟩ := u
    unfold applyUpdates
    cases hf : findColumn t cn with
    | none => simp [hf]
    | some col =>
      cases hv : validateValueType col v with
      | some e => simp [hf, hv]
      | none =>
        simp only [hf, hv]
        exact ih _

/-- After a fully successful update application, the target row holds the
folded-in new values. -/
theorem applyUpdates_ok_resolve (t : Table) (rid : Nat) (us : List (GoString × GoVal))
    (t' : Table) (h : applyUpdates t rid us = (none, t')) :
    t'.resolve rid = us.foldl (fun r p => r.setValue p.1 p.2) (t.resolve rid) := by
  induction us generalizing t with
  | nil =>
    simp [applyUpdates] at h
    simp [← h]
  | cons u rest ih =>
    obtain ⟨cn, v⟩ := u
    unfold applyUpdates at h
    cases hf : findColumn t cn with
    | none => simp [hf] at h
    | some col =>
      simp only [hf] at h
      cases hv : validateValueType col v with
      | some e => simp [hv] at h
      | none =>
        simp only [hv] at h
        simp only [List.foldl_cons]
        have := ih _ h
        rw [this]
        have hres : ({ t with store := storeSet t.store rid ((t.resolve rid).setValue cn v) } :
            Table).resolve rid = (t.resolve rid).setValue cn v := by
          simp [Table.resolve, storeSet_find_self]
        rw [hres]

/-- `validateValueType` can only fail with a type mismatch on the
column's own name. -/
theorem validateValueType_err (col : Column) (v : GoVal) (e : Err)
    (h : validateValueType col v = some e) : e = .typeMismatch col.name := by
  cases hd : col.dataType <;> cases v <;>
    simp [validateValueType, hd] at h <;> try exact h.symm
  all_goals
    (rename_i w; cases w <;> simp_all [validateValueType])

/-- The update-application loop can only fail on an unknown column or a
type mismatch, never with a constraint error. -/
theorem applyUpdates_err (t : Table) (rid : Nat) (us : List (GoString × GoVal)) (e : Err)
    (h : (applyUpdates t rid us).1 = some e) :
    (∃ c, e = .columnNotFound c) ∨ (∃ c, e = .typeMismatch c) := by
  induction us generalizing t with
  | nil => simp [applyUpdates] at h
  | cons u rest ih =>
    obtain ⟨cn, v⟩ := u
    unfold applyUpdates at h
    cases hf : findColumn t cn with
    | none => simp [hf] at h; exact .inl ⟨cn, h.symm⟩
    | some col =>
      simp only [hf] at h
      cases hv : validateValueType col v with
      | some e' =>
        simp only [hv] at h
        simp at h
        exact .inr ⟨col.name, h ▸ validateValueType_err col v e' hv⟩
      | none =>
        simp only [hv] at h
        exact ih _ h

/-- C6: when a primary-keyed `UpdateRow` fails unique re-validation, every
update had already been applied in place: the application loop succeeded,
the target row carries the folded-in new values with no rollback, the row
sequence and index are untouched, and the returned ConstraintError is
exactly the one produced by re-checking the unique-flagged non-primary
columns against all other rows. -/
theorem claim6_update_partial_mutation (t t' : Table) (pkv : GoVal)
    (us : List (GoString × GoVal)) (c : GoString) (v : GoVal) (rid : Nat)
    (hfind : findRowByPrimaryKey t pkv = some rid)
    (hup : updateRow t pkv us = (some (.uniqueViolation c v), t')) :
    (applyUpdates t rid us).1 = none ∧
    t'.resolve rid = us.foldl (fun r p => r.setValue p.1 p.2) (t.resolve rid) ∧
    t'.rowIds = t.rowIds ∧ t'.index = t.index ∧
    recheckUnique t' rid t'.columns = some (.uniqueViolation c v) := by
  unfold updateRow at hup
  simp only [hfind] at hup
  cases hap : applyUpdates t rid us with
  | mk err t1 =>
    simp only [hap] at hup
    cases err with
    | some e =>
      simp only [Prod.mk.injEq, Option.some.injEq] at hup
      rcases applyUpdates_err t rid us e (by rw [hap]) with ⟨c', hc'⟩ | ⟨c', hc'⟩ <;>
        simp [hc'] at hup
    | none =>
      cases hrc : recheckUnique t1 rid t1.columns with
      | some e =>
        simp only [hrc, Prod.mk.injEq, Option.some.injEq] at hup
        obtain ⟨he, ht⟩ := hup
        subst ht
        have hfr := applyUpdates_frame t rid us
        rw [hap] at hfr
        refine ⟨rfl, applyUpdates_ok_resolve t rid us t1 hap, hfr.2.1, hfr.2.2.1, ?_⟩
        rw [hrc, he]
      | none => simp [hrc] at hup

/-- Witness for C6: copying row 2's unique email onto row 1 fails with
the ConstraintError yet leaves the new value applied. -/
theorem claim6_update_partial_mutation_witness :
    (applyUpdates exUniq 0 exUpd).1 = none ∧
    exUniqAfter.resolve 0 = exUpd.foldl (fun r p => r.setValue p.1 p.2) (exUniq.resolve 0) ∧
    exUniqAfter.rowIds = exUniq.rowIds ∧ exUniqAfter.index = exUniq.index ∧
    recheckUnique exUniqAfter 0 exUniqAfter.columns
      = some (.uniqueViolation (gs "email") (some (.vText (gs "b")))) :=
  claim6_update_partial_mutation exUniq exUniqAfter (some (.vInt 1)) exUpd
    (gs "email") (some (.vText (gs "b"))) 0 (by decide) (by decide)

/-- C9: a successful update that assigns a new value `k'` to the
primary-key column does not relocate the index entry: the index is
unchanged, `FindRowByPrimaryKey k'` is absent, and `FindRowByPrimaryKey k`
still returns the row, which now carries primary-key value `k'`. -/
theorem claim9_pk_update_stale_index (t t' : Table) (k k' : GoVal) (rid : Nat)
    (hfind : findRowByPrimaryKey t k = some rid)
    (hfresh : findRowByPrimaryKey t k' = none)
    (_hne : k' ≠ k)
    (hup : updateRow t k [(t.primaryKey, k')] = (none, t')) :
    t'.index = t.index ∧
    findRowByPrimaryKey t' k' = none ∧
    findRowByPrimaryKey t' k = some rid ∧
    (t'.resolve rid).getValue t.primaryKey = k' := by
  have hpkne : ¬t.primaryKey = [] := by
    intro hcon
    rw [findRowByPrimaryKey, if_pos hcon] at hfind
    exact Option.noConfusion hfind
  unfold updateRow at hup
  simp only [hfind] at hup
  cases hap : applyUpdates t rid [(t.primaryKey, k')] with
  | mk err t1 =>
    simp only [hap] at hup
    cases err with
    | some e => simp at hup
    | none =>
      cases hrc : recheckUnique t1 rid t1.columns with
      | some e => simp [hrc] at hup
      | none =>
        simp only [hrc, Prod.mk.injEq, true_and] at hup
        subst hup
        have hfr := applyUpdates_frame t rid [(t.primaryKey, k')]
        rw [hap] at hfr
        obtain ⟨-, -, hidx, hpk⟩ := hfr
        have hres := applyUpdates_ok_resolve t rid [(t.primaryKey, k')] t1 hap
        refine ⟨hidx, ?_, ?_, ?_⟩
        · rw [findRowByPrimaryKey, hpk, if_neg hpkne, hidx]
          rw [findRowByPrimaryKey, if_neg hpkne] at hfresh
          exact hfresh
        · rw [findRowByPrimaryKey, hpk, if_neg hpkne, hidx]
          rw [findRowByPrimaryKey, if_neg hpkne] at hfind
          exact hfind
        · rw [hres]
          simp [getValue_setValue_self]

/-- Witness for C9 at a one-row table whose primary key moves from 1
to 2. -/
theorem claim9_pk_update_stale_index_witness :
    exPkAfter.index = exPkTable1.index ∧
    findRowByPrimaryKey exPkAfter (some (.vInt 2)) = none ∧
    findRowByPrimaryKey exPkAfter (some (.vInt 1)) = some 0 ∧
    (exPkAfter.resolve 0).getValue exPkTable1.primaryKey = some (.vInt 2) :=
  claim9_pk_update_stale_index exPkTable1 exPkAfter (some (.vInt 1)) (some (.vInt 2)) 0
    (by decide) (by decide) (by decide) (by decide)

/-- The whole select pipeline for `SELECT * FROM t WHERE col op literal`
over a single-table database: the result is the ordered filtered rows,
projected over all declared columns. -/
theorem executeSelect_whereSelect (t : Table) (col op : GoString) (lit : GoVal)
    (ty : DataType) :
    executeSelect (singleDb t) (whereSelect t.name col op lit ty)
      = .ok ⟨getColumnNames t,
          (t.rowIds.filter fun rid =>
              compareValues ((t.resolve rid).getValue col) lit op).map
            fun rid => (getColumnNames t).map ((t.resolve rid).getValue)⟩ := by
  simp [executeSelect, whereSelect, singleDb, dbGet, List.find?, buildCondOpt,
    buildWhereCondition, buildBinaryCondition, extractColumnName, evaluateExpression,
    selectRows]

/-- `compareValues` with `=` is type-and-value structural equality. -/
theorem compareValues_eq_op (x v : GoVal) : compareValues x v (gs "=") = goEq x v := by
  simp [compareValues]

/-- `compareValues` with `>` against an Integer literal holds exactly for
Integer row values strictly above the literal. -/
theorem compareValues_gt_int (x : GoVal) (k : Int) :
    compareValues x (some (.vInt k)) (gs ">")
      = match x with
        | some (.vInt a) => decide (k < a)
        | _ => false := by
  have h1 : ¬gs ">" = gs "=" := by decide
  have h2 : ¬gs ">" = gs "!=" := by decide
  simp only [compareValues, if_neg h1, if_neg h2, if_pos rfl]
  cases x with
  | none => simp [compareOrdered]
  | some w =>
    cases w with
    | vInt a =>
      simp only [compareOrdered]
      split_ifs with ha hb <;> simp <;> omega
    | vText s => simp [compareOrdered]
    | vBool b => simp [compareOrdered]

/-- `cmpStr` is positive exactly when the right string is lexicographically
below the left one. -/
theorem cmpStr_pos_iff (a b : GoString) : 0 < cmpStr a b ↔ b < a := by
  induction a generalizing b with
  | nil =>
    cases b with
    | nil => exact ⟨fun h => by simp [cmpStr] at h, fun h => by cases h⟩
    | cons y ys => exact ⟨fun h => by simp [cmpStr] at h, fun h => by cases h⟩
  | cons x xs ih =>
    cases b with
    | nil =>
      refine ⟨fun _ => List.Lex.nil, fun _ => by simp [cmpStr]⟩
    | cons y ys =>
      by_cases hxy : x < y
      · have hnyx : ¬y < x := asymm hxy
        simp only [cmpStr, if_pos hxy]
        refine ⟨fun h => by simp at h, fun h => ?_⟩
        cases h with
        | cons h' => exact absurd hxy (lt_irrefl _)
        | rel h' => exact absurd h' hnyx
      · by_cases hyx : y < x
        · simp only [cmpStr, if_neg hxy, if_pos hyx]
          exact ⟨fun _ => List.Lex.rel hyx, fun _ => by norm_num⟩
        · have hxeq : x = y := le_antisymm (not_lt.mp hyx) (not_lt.mp hxy)
          subst hxeq
          simp only [cmpStr, if_neg hxy, if_neg hyx]
          refine ⟨fun h => List.Lex.cons ((ih ys).mp h), fun h => ?_⟩
          cases h with
          | cons h' => exact (ih ys).mpr h'
          | rel h' => exact absurd h' hyx

/-- `compareValues` with `>` against a Text literal holds exactly for
Text row values lexicographically above the literal. -/
theorem compareValues_gt_text (x : GoVal) (s : GoString) :
    compareValues x (some (.vText s)) (gs ">")
      = match x with
        | some (.vText a) => decide (s < a)
        | _ => false := by
  have h1 : ¬gs ">" = gs "=" := by decide
  have h2 : ¬gs ">" = gs "!=" := by decide
  simp only [compareValues, if_neg h1, if_neg h2, if_pos rfl]
  cases x with
  | none => simp [compareOrdered]
  | some w =>
    cases w with
    | vInt a => simp [compareOrdered]
    | vText a => simp [compareOrdered, cmpStr_pos_iff]
    | vBool b => simp [compareOrdered]

/-- Over incomparable operands `compareOrdered` is 0, so `>` is false. -/
theorem compareValues_gt_incomparable (x v : GoVal)
    (h : ordComparable x v = false) : compareValues x v (gs ">") = false := by
  have h1 : ¬gs ">" = gs "=" := by decide
  have h2 : ¬gs ">" = gs "!=" := by decide
  simp only [compareValues, if_neg h1, if_neg h2, if_pos rfl]
  cases x with
  | none => simp [compareOrdered]
  | some w =>
    cases w with
    | vInt a =>
      cases v with
      | none => simp [compareOrdered]
      | some u => cases u <;> simp_all [ordComparable, compareOrdered]
    | vText a =>
      cases v with
      | none => simp [compareOrdered]
      | some u => cases u <;> simp_all [ordComparable, compareOrdered]
    | vBool b => simp [compareOrdered]

/-- C7: a star-select with `col = literal` returns exactly the rows whose
value in `col` is type-and-value equal to the literal; `col > literal`
over an Integer literal returns exactly the rows whose Integer value is
strictly greater, over a Text literal exactly the rows whose Text value is
lexicographically strictly greater; and when no row value is
order-comparable with the literal (cross-type or Boolean operands) the
result is an empty row set, not an error. -/
theorem claim7_select_predicates (t : Table) (colE colG colT colN : GoString)
    (vE litN : GoVal) (kG : Int) (sT : GoString) (tyE tyG tyT tyN : DataType)
    (hN : ∀ rid ∈ t.rowIds, ordComparable ((t.resolve rid).getValue colN) litN = false) :
    (executeSelect (singleDb t) (whereSelect t.name colE (gs "=") vE tyE)
      = .ok ⟨getColumnNames t,
          (t.rowIds.filter fun rid => goEq ((t.resolve rid).getValue colE) vE).map
            fun rid => (getColumnNames t).map ((t.resolve rid).getValue)⟩) ∧
    (executeSelect (singleDb t) (whereSelect t.name colG (gs ">") (some (.vInt kG)) tyG)
      = .ok ⟨getColumnNames t,
          (t.rowIds.filter fun rid =>
              match (t.resolve rid).getValue colG with
              | some (.vInt a) => decide (kG < a)
              | _ => false).map
            fun rid => (getColumnNames t).map ((t.resolve rid).getValue)⟩) ∧
    (executeSelect (singleDb t) (whereSelect t.name colT (gs ">") (some (.vText sT)) tyT)
      = .ok ⟨getColumnNames t,
          (t.rowIds.filter fun rid =>
              match (t.resolve rid).getValue colT with
              | some (.vText a) => decide (sT < a)
              | _ => false).map
            fun rid => (getColumnNames t).map ((t.resolve rid).getValue)⟩) ∧
    (executeSelect (singleDb t) (whereSelect t.name colN (gs ">") litN tyN)
      = .ok ⟨getColumnNames t, []⟩) := by
  refine ⟨?_, ?_, ?_, ?_⟩
  · rw [executeSelect_whereSelect]
    simp only [compareValues_eq_op]
  · rw [executeSelect_whereSelect]
    simp only [compareValues_gt_int]
  · rw [executeSelect_whereSelect]
    simp only [compareValues_gt_text]
  · rw [executeSelect_whereSelect]
    have : (t.rowIds.filter fun rid =>
        compareValues ((t.resolve rid).getValue colN) litN (gs ">")) = [] := by
      rw [List.filter_eq_nil_iff]
      intro rid hrid
      rw [compareValues_gt_incomparable _ _ (hN rid hrid)]
      simp
    rw [this]
    rfl

/-- Witness for C7 at the concrete `people` table (incomparable case:
a Boolean column against an Integer literal). -/
theorem claim7_select_predicates_witness :
    executeSelect (singleDb exSel) (whereSelect exSel.name (gs "flag") (gs ">")
        (some (.vInt 0)) .integer)
      = .ok ⟨getColumnNames exSel, []⟩ :=
  (claim7_select_predicates exSel (gs "name") (gs "age") (gs "name") (gs "flag")
    (some (.vText (gs "Alice"))) (some (.vInt 0)) 25 (gs "Alice")
    .text .integer .text .integer (by decide)).2.2.2

/-- A guarded `filterMap` is a `map` over a `filter`. -/
theorem filterMap_guard {α β : Type} (l : List α) (p : α → Bool) (f : α → β) :
    (l.filterMap fun a => if p a then some (f a) else none) = (l.filter p).map f := by
  induction l with
  | nil => rfl
  | cons a as ih =>
    by_cases h : p a <;> simp [List.filterMap_cons, h, ih, List.filter_cons]

/-- C8: a SELECT joining A and B on `A.x = B.y` produces, in nested-loop
order, exactly one output row (left values followed by right values) per
pair of rows whose `x` and `y` values are structurally equal; the number
of output rows is the sum over A's rows of the number of matching B rows;
and a JOIN whose ON operator is not `=` fails with the
UnsupportedError. -/
theorem claim8_equality_join (A B : Table) (x y : GoString)
    (hne : ¬A.name = B.name) :
    (executeSelect [(A.name, A), (B.name, B)] (joinSelect A.name B.name x y (gs "="))
      = .ok ⟨getColumnNames A ++ getColumnNames B,
          A.rowIds.flatMap fun l =>
            (B.rowIds.filter fun r =>
                goEq ((A.resolve l).getValue x) ((B.resolve r).getValue y)).map
              fun r => (getColumnNames A).map ((A.resolve l).getValue) ++
                       (getColumnNames B).map ((B.resolve r).getValue)⟩) ∧
    ((A.rowIds.flatMap fun l =>
        (B.rowIds.filter fun r =>
            goEq ((A.resolve l).getValue x) ((B.resolve r).getValue y)).map
          fun r => (getColumnNames A).map ((A.resolve l).getValue) ++
                   (getColumnNames B).map ((B.resolve r).getValue)).length
      = (A.rowIds.map fun l =>
          (B.rowIds.filter fun r =>
              goEq ((A.resolve l).getValue x) ((B.resolve r).getValue y)).length).sum) ∧
    (∀ op : GoString, ¬op = gs "=" →
      executeSelect [(A.name, A), (B.name, B)] (joinSelect A.name B.name x y op)
        = .error .unsupportedJoin) := by
  refine ⟨?_, ?_, ?_⟩
  · simp [executeSelect, joinSelect, dbGet, List.find?, buildCondOpt, executeJoinSelect,
      parseJoinCondition, extractColumnName, hne, filterMap_guard]
  · rw [List.length_flatMap]
    congr 1
    apply List.map_congr_left
    intro l _
    simp
  · intro op hop
    simp [executeSelect, joinSelect, dbGet, List.find?, buildCondOpt, executeJoinSelect,
      parseJoinCondition, hne, hop]

/-- Witness for C8 on the one-row join tables. -/
theorem claim8_equality_join_witness :
    executeSelect [(exJoinA.name, exJoinA), (exJoinB.name, exJoinB)]
        (joinSelect exJoinA.name exJoinB.name (gs "x") (gs "y") (gs "="))
      = .ok ⟨getColumnNames exJoinA ++ getColumnNames exJoinB,
          exJoinA.rowIds.flatMap fun l =>
            (exJoinB.rowIds.filter fun r =>
                goEq ((exJoinA.resolve l).getValue (gs "x"))
                  ((exJoinB.resolve r).getValue (gs "y"))).map
              fun r => (getColumnNames exJoinA).map ((exJoinA.resolve l).getValue) ++
                       (getColumnNames exJoinB).map ((exJoinB.resolve r).getValue)⟩ :=
  (claim8_equality_join exJoinA exJoinB (gs "x") (gs "y") (by decide)).1

/-! ## Round-trip development (C2): string lemmas -/

/-- Splitting a separator-free string yields the single piece. -/
theorem splitChar_no_sep (sep : Char) (s : GoString) (h : ∀ c ∈ s, ¬c = sep) :
    splitChar sep s = [s] := by
  induction s with
  | nil => rfl
  | cons c cs ih =>
    have hc : ¬c = sep := h c (.head _)
    rw [splitChar, if_neg hc, ih (fun c' hc' => h c' (.tail _ hc'))]

/-- Splitting past an embedded separator peels off the first piece. -/
theorem splitChar_append (sep : Char) (s rest : GoString) (h : ∀ c ∈ s, ¬c = sep) :
    splitChar sep (s ++ sep :: rest) = s :: splitChar sep rest := by
  induction s with
  | nil => simp [splitChar]
  | cons c cs ih =>
    have hc : ¬c = sep := h c (.head _)
    rw [List.cons_append, splitChar, if_neg hc,
      ih (fun c' hc' => h c' (.tail _ hc'))]

/-- Split inverts join on a non-empty list of separator-free pieces. -/
theorem splitChar_joinChar (sep : Char) (ls : List GoString) (hne : ls ≠ [])
    (h : ∀ l ∈ ls, ∀ c ∈ l, ¬c = sep) :
    splitChar sep (joinChar sep ls) = ls := by
  induction ls with
  | nil => exact absurd rfl hne
  | cons l ls ih =>
    cases ls with
    | nil => exact splitChar_no_sep sep l (h l (.head _))
    | cons l2 ls2 =>
      rw [show joinChar sep (l :: l2 :: ls2) = l ++ sep :: joinChar sep (l2 :: ls2) from rfl]
      rw [splitChar_append sep l _ (h l (.head _))]
      rw [ih (by simp) (fun l' hl' => h l' (.tail _ hl'))]

/-- `splitChar` never returns an empty list of pieces. -/
theorem splitChar_ne_nil (sep : Char) (s : GoString) : splitChar sep s ≠ [] := by
  cases s with
  | nil => simp [splitChar]
  | cons c cs =>
    rw [splitChar]
    by_cases hc : c = sep
    · simp [hc]
    · rw [if_neg hc]
      cases splitChar sep cs <;> simp

/-- `dropWhile` keeps a list none of whose elements satisfy the
predicate. -/
theorem dropWhile_all_false (p : Char → Bool) (s : GoString)
    (h : ∀ c ∈ s, p c = false) : s.dropWhile p = s := by
  cases s with
  | nil => rfl
  | cons c cs => rw [List.dropWhile_cons, h c (.head _)]; simp

/-- `TrimSpace` is the identity on space-free strings. -/
theorem goTrimSpace_noop (s : GoString) (h : ∀ c ∈ s, isGoSpace c = false) :
    goTrimSpace s = s := by
  unfold goTrimSpace
  rw [dropWhile_all_false _ s h,
    dropWhile_all_false _ _ (fun c hc => h c (by simpa using hc)),
    List.reverse_reverse]

/-- A string starts with its own prefix. -/
theorem goStartsWith_append (p r : GoString) : goStartsWith (p ++ r) p = true := by
  induction p with
  | nil => cases r <;> rfl
  | cons c cs ih => simp [goStartsWith, ih]

/-- Trimming a prefix off a prefixed string leaves the remainder. -/
theorem goDropStart_append (p r : GoString) : goDropStart (p ++ r) p = r := by
  unfold goDropStart
  rw [if_pos (goStartsWith_append p r)]
  simp

/-- Every character of a join is the separator or a character of a
piece. -/
theorem joinChar_chars (sep : Char) (ls : List GoString) (c : Char)
    (h : c ∈ joinChar sep ls) : c = sep ∨ ∃ l ∈ ls, c ∈ l := by
  induction ls with
  | nil => exact absurd h (List.not_mem_nil c)
  | cons l ls ih =>
    cases ls with
    | nil => exact .inr ⟨l, .head _, h⟩
    | cons l2 ls2 =>
      rw [show joinChar sep (l :: l2 :: ls2) = l ++ sep :: joinChar sep (l2 :: ls2)
        from rfl] at h
      rcases List.mem_append.mp h with h1 | h2
      · exact .inr ⟨l, .head _, h1⟩
      · rcases List.mem_cons.mp h2 with rfl | h3
        · exact .inl rfl
        · rcases ih h3 with hs | ⟨l', hl', hc⟩
          · exact .inl hs
          · exact .inr ⟨l', .tail _ hl', hc⟩

/-- On quote-free input the CSV scanner is a plain comma split, with the
pending field prefixed onto the first piece. -/
theorem csvAux_no_quote (line : GoString) (cur : GoString) (acc : List GoString)
    (h : ∀ c ∈ line, ¬c = '"') :
    csvAux line false cur acc = acc ++ consField cur (splitChar ',' line) := by
  induction line generalizing cur acc with
  | nil => simp [csvAux, splitChar, consField]
  | cons c cs ih =>
    have hq : ¬c = '"' := h c (.head _)
    have htail : ∀ c' ∈ cs, ¬c' = '"' := fun c' hc' => h c' (.tail _ hc')
    by_cases hc : c = ','
    · subst hc
      rw [show csvAux (',' :: cs) false cur acc = csvAux cs false [] (acc ++ [cur]) by
        rw [csvAux.eq_def]
        simp]
      rw [ih [] (acc ++ [cur]) htail]
      rw [show splitChar ',' (',' :: cs) = [] :: splitChar ',' cs by
        rw [splitChar, if_pos rfl]]
      cases hsp : splitChar ',' cs with
      | nil => exact absurd hsp (splitChar_ne_nil ',' cs)
      | cons p ps => simp [consField]
    · rw [show csvAux (c :: cs) false cur acc = csvAux cs false (cur ++ [c]) acc by
        rw [csvAux.eq_def]
        simp [hq, hc]]
      rw [ih (cur ++ [c]) acc htail]
      rw [show splitChar ',' (c :: cs)
          = (match splitChar ',' cs with
             | [] => [[c]]
             | p :: ps => (c :: p) :: ps) by rw [splitChar, if_neg hc]]
      cases hsp : splitChar ',' cs with
      | nil => exact absurd hsp (splitChar_ne_nil ',' cs)
      | cons p ps => simp [consField]

/-- On a quote-free line, `parseCSVLine` is exactly a comma split. -/
theorem parseCSVLine_no_quote (line : GoString) (h : ∀ c ∈ line, ¬c = '"') :
    parseCSVLine line = splitChar ',' line := by
  rw [parseCSVLine, csvAux_no_quote line [] [] h]
  cases hsp : splitChar ',' line with
  | nil => exact absurd hsp (splitChar_ne_nil ',' line)
  | cons p ps => simp [consField]

/-! ## Round-trip development (C2): decimal integers -/

/-- The fuel does not matter once it exceeds the value. -/
theorem natCharsAux_fuel (n : Nat) : ∀ f1 f2 : Nat, n < f1 → n < f2 →
    natCharsAux f1 n = natCharsAux f2 n := by
  induction n using Nat.strong_induction_on with
  | _ n ih =>
    intro f1 f2 h1 h2
    cases f1 with
    | zero => omega
    | succ g1 =>
      cases f2 with
      | zero => omega
      | succ g2 =>
        simp only [natCharsAux]
        by_cases h : n < 10
        · simp [h]
        · rw [if_neg h, if_neg h]
          congr 1
          exact ih (n / 10) (by omega) g1 g2 (by omega) (by omega)

/-- The self-recursive unfolding of the decimal renderer. -/
theorem natChars_eq (n : Nat) :
    natChars n = if n < 10 then [digitToChar n]
                 else natChars (n / 10) ++ [digitToChar (n % 10)] := by
  unfold natChars
  rw [show natCharsAux (n + 1) n
      = (if n < 10 then [digitToChar n]
         else natCharsAux n (n / 10) ++ [digitToChar (n % 10)]) from by
    simp [natCharsAux]]
  by_cases h : n < 10
  · simp [h]
  · rw [if_neg h, if_neg h]
    congr 1
    exact natCharsAux_fuel (n / 10) n (n / 10 + 1) (by omega) (by omega)

/-- The digit rendering is never empty. -/
theorem natChars_ne_nil (n : Nat) : natChars n ≠ [] := by
  rw [natChars_eq]
  split <;> simp

/-- Every character of the digit rendering is a rendered digit. -/
theorem natChars_digits (n : Nat) : ∀ c ∈ natChars n, ∃ d, d < 10 ∧ digitToChar d = c := by
  induction n using Nat.strong_induction_on with
  | _ n ih =>
    rw [natChars_eq]
    by_cases h : n < 10
    · rw [if_pos h]
      intro c hc
      rcases List.mem_cons.mp hc with rfl | hfalse
      · exact ⟨n, h, rfl⟩
      · exact absurd hfalse (List.not_mem_nil c)
    · rw [if_neg h]
      intro c hc
      rcases List.mem_append.mp hc with h1 | h2
      · exact ih (n / 10) (by omega) c h1
      · rcases List.mem_cons.mp h2 with rfl | hfalse
        · exact ⟨n % 10, by omega, rfl⟩
        · exact absurd hfalse (List.not_mem_nil c)

/-- Reading a digit character back recovers the digit. -/
theorem charDigit_digitToChar (d : Nat) (h : d < 10) :
    charDigit (digitToChar d) = some d := by
  interval_cases d <;> decide

/-- Digit characters are clean. -/
theorem digitToChar_clean (d : Nat) (h : d < 10) : cleanChar (digitToChar d) = true := by
  interval_cases d <;> decide

/-- A clean character is none of the codec's structural characters. -/
theorem cleanChar_props (c : Char) (h : cleanChar c = true) :
    ¬c = '-' ∧ ¬c = '+' ∧ ¬c = ',' ∧ ¬c = '"' ∧ ¬c = ':' ∧ ¬c = '\n' ∧
    isGoSpace c = false := by
  refine ⟨?_, ?_, ?_, ?_, ?_, ?_, ?_⟩
  case _ => intro hq; subst hq; exact absurd h (by decide)
  case _ => intro hq; subst hq; exact absurd h (by decide)
  case _ => intro hq; subst hq; exact absurd h (by decide)
  case _ => intro hq; subst hq; exact absurd h (by decide)
  case _ => intro hq; subst hq; exact absurd h (by decide)
  case _ => intro hq; subst hq; exact absurd h (by decide)
  case _ =>
    by_cases hs : isGoSpace c = true
    · exfalso
      simp only [isGoSpace, Bool.or_eq_true, decide_eq_true_eq] at hs
      rcases hs with ((((rfl | rfl) | rfl) | rfl) | rfl) | rfl <;>
        exact absurd h (by decide)
    · simpa using hs

/-- The digit parser distributes over append. -/
theorem parseNatAux_append (s1 s2 : GoString) (acc : Nat) :
    parseNatAux (s1 ++ s2) acc
      = match parseNatAux s1 acc with
        | none => none
        | some a => parseNatAux s2 a := by
  induction s1 generalizing acc with
  | nil => simp [parseNatAux]
  | cons c cs ih =>
    cases hc : charDigit c with
    | none => simp [parseNatAux, hc]
    | some d => simp [parseNatAux, hc, ih]

/-- Reading back the digit rendering accumulates the value. -/
theorem parseNatAux_natChars (n : Nat) : ∀ acc : Nat,
    parseNatAux (natChars n) acc = some (acc * 10 ^ (natChars n).length + n) := by
  induction n using Nat.strong_induction_on with
  | _ n ih =>
    intro acc
    rw [natChars_eq]
    by_cases h : n < 10
    · rw [if_pos h]
      simp [parseNatAux, charDigit_digitToChar n h]
    · rw [if_neg h]
      rw [parseNatAux_append]
      rw [ih (n / 10) (by omega) acc]
      have hmod : charDigit (digitToChar (n % 10)) = some (n % 10) :=
        charDigit_digitToChar (n % 10) (by omega)
      simp only [parseNatAux, hmod]
      have hlen : (natChars (n / 10) ++ [digitToChar (n % 10)]).length
          = (natChars (n / 10)).length + 1 := by simp
      rw [hlen, pow_succ]
      congr 1
      ring_nf
      omega

/-- `parseNatDigits` inverts the decimal rendering. -/
theorem parseNatDigits_natChars (n : Nat) : parseNatDigits (natChars n) = some n := by
  cases hc : natChars n with
  | nil => exact absurd hc (natChars_ne_nil n)
  | cons c cs =>
    rw [show parseNatDigits (c :: cs) = parseNatAux (c :: cs) 0 from rfl]
    rw [← hc, parseNatAux_natChars n 0]
    simp

/-- `Atoi` inverts the unsigned decimal rendering. -/
theorem goAtoi_natChars (n : Nat) : goAtoi (natChars n) = some (n : Int) := by
  cases hc : natChars n with
  | nil => exact absurd hc (natChars_ne_nil n)
  | cons c cs =>
    have hcmem : c ∈ natChars n := by rw [hc]; exact .head _
    obtain ⟨d, hdlt, hdc⟩ := natChars_digits n c hcmem
    have hprops := cleanChar_props c (hdc ▸ digitToChar_clean d hdlt)
    rw [show goAtoi (c :: cs)
        = (if c = '-' then (parseNatDigits cs).map fun m => -(m : Int)
           else if c = '+' then (parseNatDigits cs).map fun m => (m : Int)
           else (parseNatDigits (c :: cs)).map fun m => (m : Int)) from rfl]
    rw [if_neg hprops.1, if_neg hprops.2.1, ← hc, parseNatDigits_natChars]
    rfl

/-- `Atoi` inverts the Go `%v` rendering of an int. -/
theorem goAtoi_goFormatInt (i : Int) : goAtoi (goFormatInt i) = some i := by
  unfold goFormatInt
  by_cases h : i < 0
  · rw [if_pos h]
    rw [show goAtoi ('-' :: natChars i.natAbs)
        = (parseNatDigits (natChars i.natAbs)).map fun m => -(m : Int) by
      rw [show goAtoi ('-' :: natChars i.natAbs)
          = (if ('-' : Char) = '-' then
              (parseNatDigits (natChars i.natAbs)).map fun m => -(m : Int)
            else if ('-' : Char) = '+' then
              (parseNatDigits (natChars i.natAbs)).map fun m => (m : Int)
            else (parseNatDigits ('-' :: natChars i.natAbs)).map fun m => (m : Int))
        from rfl]
      rw [if_pos rfl]]
    rw [parseNatDigits_natChars]
    show some (-(i.natAbs : Int)) = some i
    congr 1
    omega
  · rw [if_neg h, goAtoi_natChars]
    congr 1
    omega

/-! ## Round-trip development (C2): fields and rows -/

/-- A string of clean characters never contains a non-clean character. -/
theorem clean_not_contains (s : GoString) (x : Char)
    (hcl : ∀ c ∈ s, cleanChar c = true) (hx : cleanChar x = false) :
    containsChar s x = false := by
  unfold containsChar
  by_cases h : s.contains x = true
  · have hmem : x ∈ s := by simpa using h
    rw [hcl x hmem] at hx
    cases hx
  · simpa using h

/-- A clean Text value serialises to itself (no quoting needed). -/
theorem fieldOf_text (s : GoString) (h : CleanStr s) :
    fieldOf (some (.vText s)) = s := by
  simp only [fieldOf, formatValue]
  rw [clean_not_contains s ',' h.2 (by decide),
    clean_not_contains s '"' h.2 (by decide)]
  rfl

/-- Characters of a serialised clean value are clean or a minus sign. -/
theorem fieldOf_chars (v : GoVal) (h : CleanVal v) :
    ∀ c ∈ fieldOf v, cleanChar c = true ∨ c = '-' := by
  cases v with
  | none => exact absurd h (by simp [CleanVal])
  | some w =>
    cases w with
    | vInt i =>
      intro c hc
      simp only [fieldOf, formatValue, goFormatInt] at hc
      by_cases hneg : i < 0
      · rw [if_pos hneg] at hc
        rcases List.mem_cons.mp hc with rfl | hc2
        · exact .inr rfl
        · obtain ⟨d, hd, rfl⟩ := natChars_digits i.natAbs c hc2
          exact .inl (digitToChar_clean d hd)
      · rw [if_neg hneg] at hc
        obtain ⟨d, hd, rfl⟩ := natChars_digits i.natAbs c hc
        exact .inl (digitToChar_clean d hd)
    | vText s =>
      intro c hc
      rw [fieldOf_text s h] at hc
      exact .inl (h.2 c hc)
    | vBool b =>
      intro c hc
      left
      cases b
      · exact (by decide : ∀ c ∈ gs "false", cleanChar c = true) c hc
      · exact (by decide : ∀ c ∈ gs "true", cleanChar c = true) c hc

/-- A clean value serialises to a non-empty field. -/
theorem fieldOf_ne_nil (v : GoVal) (h : CleanVal v) : fieldOf v ≠ [] := by
  cases v with
  | none => exact absurd h (by simp [CleanVal])
  | some w =>
    cases w with
    | vInt i =>
      simp only [fieldOf, formatValue, goFormatInt]
      by_cases hneg : i < 0
      · simp [hneg]
      · rw [if_neg hneg]
        exact natChars_ne_nil i.natAbs
    | vText s => rw [fieldOf_text s h]; exact h.1
    | vBool b => cases b <;> decide

/-- `parseValue` inverts the Integer rendering. -/
theorem parseValue_int (i : Int) :
    parseValue (goFormatInt i) .integer = .ok (some (.vInt i)) := by
  have hchars := fieldOf_chars (some (.vInt i)) trivial
  have htrim : goTrimSpace (goFormatInt i) = goFormatInt i :=
    goTrimSpace_noop _ (fun c hc => by
      rcases hchars c hc with h1 | rfl
      · exact (cleanChar_props c h1).2.2.2.2.2.2
      · decide)
  have hne : goFormatInt i ≠ [] := fieldOf_ne_nil (some (.vInt i)) trivial
  unfold parseValue
  rw [htrim, if_neg hne, goAtoi_goFormatInt]

/-- `parseValue` is the identity on clean Text. -/
theorem parseValue_text (s : GoString) (h : CleanStr s) :
    parseValue s .text = .ok (some (.vText s)) := by
  have htrim : goTrimSpace s = s :=
    goTrimSpace_noop _ (fun c hc => (cleanChar_props c (h.2 c hc)).2.2.2.2.2.2)
  unfold parseValue
  rw [htrim, if_neg h.1]
  have hcond : ¬(2 ≤ s.length ∧ s.head? = some '"' ∧ s.getLast? = some '"') := by
    rintro ⟨-, hhead, -⟩
    cases s with
    | nil => simp at hhead
    | cons c cs =>
      simp only [List.head?_cons, Option.some.injEq] at hhead
      exact (cleanChar_props c (h.2 c (.head _))).2.2.2.1 hhead
  rw [if_neg hcond]

/-- `parseValue` inverts the Boolean rendering. -/
theorem parseValue_bool (b : Bool) :
    parseValue (fieldOf (some (.vBool b))) .boolean = .ok (some (.vBool b)) := by
  cases b <;> decide

/-- `parseValue` inverts `fieldOf` on well-typed clean values. -/
theorem parseValue_fieldOf (col : Column) (v : GoVal)
    (htyped : validateValueType col v = none) (hclean : CleanVal v) :
    parseValue (fieldOf v) col.dataType = .ok v := by
  cases hdt : col.dataType with
  | integer =>
    cases v with
    | none => simp [validateValueType, hdt] at htyped
    | some w =>
      cases w with
      | vInt i => exact parseValue_int i
      | vText s => simp [validateValueType, hdt] at htyped
      | vBool b => simp [validateValueType, hdt] at htyped
  | text =>
    cases v with
    | none => simp [validateValueType, hdt] at htyped
    | some w =>
      cases w with
      | vInt i => simp [validateValueType, hdt] at htyped
      | vText s => rw [fieldOf_text s hclean]; exact parseValue_text s hclean
      | vBool b => simp [validateValueType, hdt] at htyped
  | boolean =>
    cases v with
    | none => simp [validateValueType, hdt] at htyped
    | some w =>
      cases w with
      | vInt i => simp [validateValueType, hdt] at htyped
      | vText s => simp [validateValueType, hdt] at htyped
      | vBool b => exact parseValue_bool b

/-- Reconstructing a row from its serialised fields rebuilds exactly the
positional row. -/
theorem parseRowValues_fieldsOf (cols : List Column) (vals : List GoVal)
    (htyped : TypedRow cols vals) (hclean : ∀ v ∈ vals, CleanVal v) :
    ∀ r0 : RowMap, parseRowValues cols (vals.map fieldOf) r0 = .ok (buildRow cols vals r0) := by
  induction htyped with
  | nil => intro r0; rfl
  | @cons col v cols' vals' hcv htail ih =>
    intro r0
    simp only [List.map_cons]
    rw [show parseRowValues (col :: cols') (fieldOf v :: vals'.map fieldOf) r0
        = (match parseValue (fieldOf v) col.dataType with
           | .error e => .error (.valueParseError col.name e)
           | .ok pv => parseRowValues cols' (vals'.map fieldOf) (r0.setValue col.name pv))
      from rfl]
    rw [parseValue_fieldOf col v hcv (hclean v (.head _))]
    exact ih (fun v' hv' => hclean v' (.tail _ hv')) (r0.setValue col.name v)

/-- Writing one key leaves the others untouched. -/
theorem lookupEntry_setValue_ne (r : RowMap) (c c' : GoString) (v : GoVal)
    (h : ¬c' = c) : (r.setValue c v).lookupEntry c' = r.lookupEntry c' := by
  have hcc : ¬c = c' := fun hq => h hq.symm
  induction r with
  | nil => simp [RowMap.setValue, RowMap.lookupEntry, List.find?, hcc]
  | cons p rest ih =>
    by_cases hp : p.1 = c
    · have hpc : ¬p.1 = c' := fun hq => hcc (hp.symm.trans hq)
      simp only [RowMap.setValue, if_pos hp]
      simp [RowMap.lookupEntry, List.find?, hpc]
    · simp only [RowMap.setValue, if_neg hp]
      by_cases hp' : p.1 = c'
      · simp [RowMap.lookupEntry, List.find?, hp']
      · simp only [RowMap.lookupEntry, List.find?] at ih ⊢
        simp [hp', ih]

/-- Reads of a column not named by any of the remaining writes pass
through `buildRow`. -/
theorem buildRow_lookupEntry_frame (cols : List Column) (vals : List GoVal)
    (r : RowMap) (cn : GoString) (h : ∀ col ∈ cols, ¬col.name = cn) :
    (buildRow cols vals r).lookupEntry cn = r.lookupEntry cn := by
  induction cols generalizing vals r with
  | nil => cases vals <;> rfl
  | cons col cols' ih =>
    cases vals with
    | nil => rfl
    | cons v vs =>
      rw [show buildRow (col :: cols') (v :: vs) r
          = buildRow cols' vs (r.setValue col.name v) from rfl]
      rw [ih vs _ (fun c hc => h c (.tail _ hc))]
      exact lookupEntry_setValue_ne r col.name cn v
        (fun hq => h col (.head _) (hq ▸ rfl))

/-- With distinct column names, reading the built row in column order
returns exactly the positional values. -/
theorem buildRow_getValue (cols : List Column) (vals : List GoVal) (r0 : RowMap)
    (hnodup : (cols.map (·.name)).Nodup) (hlen : vals.length = cols.length) :
    cols.map (fun col => (buildRow cols vals r0).getValue col.name) = vals := by
  induction cols generalizing vals r0 with
  | nil => cases vals with
    | nil => rfl
    | cons v vs => simp at hlen
  | cons col cols' ih =>
    cases vals with
    | nil => simp at hlen
    | cons v vs =>
      rw [show buildRow (col :: cols') (v :: vs) r0
          = buildRow cols' vs (r0.setValue col.name v) from rfl]
      simp only [List.map_cons, List.cons.injEq]
      constructor
      · have hnot : ∀ c ∈ cols', ¬c.name = col.name := by
          intro c hc hq
          have : col.name ∈ cols'.map (·.name) := by
            simpa [hq] using List.mem_map_of_mem (·.name) hc
          exact (List.nodup_cons.mp hnodup).1 this
        calc (buildRow cols' vs (r0.setValue col.name v)).getValue col.name
            = (r0.setValue col.name v).getValue col.name := by
              rw [RowMap.getValue, RowMap.getValue,
                buildRow_lookupEntry_frame cols' vs _ col.name hnot]
          _ = v := getValue_setValue_self r0 col.name v
      · exact ih vs (r0.setValue col.name v) (List.nodup_cons.mp hnodup).2 (by simpa using hlen)

/-! ## Round-trip development (C2): inserts and table folds -/

/-- `find?` over an append looks left first. -/
theorem find?_append (l1 l2 : List (Nat × RowMap)) (p : Nat × RowMap → Bool) :
    (l1 ++ l2).find? p
      = match l1.find? p with
        | some a => some a
        | none => l2.find? p := by
  induction l1 with
  | nil => simp
  | cons a l ih => by_cases hp : p a <;> simp [List.find?_cons, hp, ih]

/-- A successful insert appends the row and bumps the counter; schema
fields are unchanged. -/
theorem insertRow_ok_core (t t' : Table) (r : RowMap) (h : insertRow t r = (none, t')) :
    t'.columns = t.columns ∧ t'.name = t.name ∧ t'.primaryKey = t.primaryKey ∧
    t'.rowIds = t.rowIds ++ [t.nextId] ∧ t'.store = t.store ++ [(t.nextId, r)] ∧
    t'.nextId = t.nextId + 1 := by
  unfold insertRow at h
  cases hv : validateRow t r with
  | some e => rw [hv] at h; simp at h
  | none =>
    rw [hv] at h
    by_cases hpk : t.primaryKey = []
    · simp only [hpk, ne_eq, not_true_eq_false, if_false, Prod.mk.injEq, true_and] at h
      subst h
      exact ⟨rfl, rfl, hpk.symm, rfl, rfl, rfl⟩
    · simp only [ne_eq, hpk, not_false_eq_true, if_true] at h
      cases hl : r.lookupEntry t.primaryKey with
      | some pkv =>
        simp only [hl, Prod.mk.injEq, true_and] at h
        subst h
        exact ⟨rfl, rfl, rfl, rfl, rfl, rfl⟩
      | none =>
        simp only [hl, Prod.mk.injEq, true_and] at h
        subst h
        exact ⟨rfl, rfl, rfl, rfl, rfl, rfl⟩

/-- Rows already stored are still resolvable unchanged after an
insert. -/
theorem resolve_insert_old (t t' : Table) (r : RowMap) (rid : Nat)
    (h : insertRow t r = (none, t')) (hrid : rid < t.nextId) :
    t'.resolve rid = t.resolve rid := by
  obtain ⟨-, -, -, -, hst, -⟩ := insertRow_ok_core t t' r h
  unfold Table.resolve
  rw [hst, find?_append]
  cases hf : t.store.find? (fun p => p.1 = rid) with
  | some p => rfl
  | none =>
    have : ¬t.nextId = rid := by omega
    simp [List.find?, this]

/-- The freshly inserted row resolves to its contents. -/
theorem resolve_insert_new (t t' : Table) (r : RowMap)
    (h : insertRow t r = (none, t')) (hb : StoreBounded t) :
    t'.resolve t.nextId = r := by
  obtain ⟨-, -, -, -, hst, -⟩ := insertRow_ok_core t t' r h
  unfold Table.resolve
  rw [hst, find?_append]
  have hnone : t.store.find? (fun p => p.1 = t.nextId) = none := by
    rw [List.find?_eq_none]
    intro p hp
    have := hb.2 p hp
    simp
    omega
  rw [hnone]
  simp [List.find?]

/-- Inserting preserves the store-bound invariant. -/
theorem insertRow_bounded (t t' : Table) (r : RowMap)
    (h : insertRow t r = (none, t')) (hb : StoreBounded t) : StoreBounded t' := by
  obtain ⟨-, -, -, hri, hst, hni⟩ := insertRow_ok_core t t' r h
  constructor
  · intro rid hrid
    rw [hri] at hrid
    rw [hni]
    rcases List.mem_append.mp hrid with h1 | h2
    · exact Nat.lt_succ_of_lt (hb.1 rid h1)
    · simp at h2; omega
  · intro p hp
    rw [hst] at hp
    rw [hni]
    rcases List.mem_append.mp hp with h1 | h2
    · exact Nat.lt_succ_of_lt (hb.2 p h1)
    · simp at h2; rw [h2]; simp

/-- Unfolding one step of a successful `insertAll`. -/
theorem insertAll_ok_cons (t tf : Table) (vals : List GoVal) (rest : List (List GoVal))
    (h : insertAll t (vals :: rest) = (none, tf)) :
    ∃ t1, insertRow t (buildRow t.columns vals []) = (none, t1) ∧
      insertAll t1 rest = (none, tf) := by
  unfold insertAll at h
  cases hi : insertRow t (buildRow t.columns vals []) with
  | mk err t1 =>
    simp only [hi] at h
    cases err with
    | some e => simp at h
    | none => exact ⟨t1, rfl, h⟩

/-- After a successful bulk insert, serialising the rows of the final
table in order yields exactly the lines of the inserted value-rows. -/
theorem insertAll_render (rs : List (List GoVal)) (t tf : Table)
    (hb : StoreBounded t)
    (hnodup : (t.columns.map (·.name)).Nodup)
    (hlen : ∀ r ∈ rs, r.length = t.columns.length)
    (h : insertAll t rs = (none, tf)) :
    tf.columns = t.columns ∧ tf.name = t.name ∧ tf.primaryKey = t.primaryKey ∧
    tf.rowIds.map (rowLine tf) = t.rowIds.map (rowLine t) ++ rs.map lineOf := by
  induction rs generalizing t with
  | nil =>
    simp only [insertAll, Prod.mk.injEq, true_and] at h
    subst h
    simp
  | cons vals rest ih =>
    obtain ⟨t1, hi, hrest⟩ := insertAll_ok_cons t tf vals rest h
    obtain ⟨hcols, hname, hpk, hri, -, -⟩ := insertRow_ok_core t t1 _ hi
    have hb1 := insertRow_bounded t t1 _ hi hb
    have hres := ih t1 hb1 (hcols ▸ hnodup)
      (fun r hr => (hlen r (.tail _ hr)).trans (hcols ▸ rfl)) hrest
    refine ⟨hres.1.trans hcols, hres.2.1.trans hname, hres.2.2.1.trans hpk, ?_⟩
    rw [hres.2.2.2, hri]
    have hold : t.rowIds.map (rowLine t1) = t.rowIds.map (rowLine t) := by
      apply List.map_congr_left
      intro rid hrid
      unfold rowLine
      rw [resolve_insert_old t t1 _ rid hi (hb.1 rid hrid)]
      rw [show getColumnNames t1 = getColumnNames t by unfold getColumnNames; rw [hcols]]
    have hnew : rowLine t1 t.nextId = lineOf vals := by
      unfold rowLine lineOf
      rw [resolve_insert_new t t1 _ hi hb]
      rw [show getColumnNames t1 = getColumnNames t by unfold getColumnNames; rw [hcols]]
      congr 1
      unfold getColumnNames
      rw [List.map_map]
      have hread := buildRow_getValue t.columns vals [] hnodup (hlen vals (.head _))
      calc t.columns.map ((fun colName =>
              match (buildRow t.columns vals []).getValue colName with
              | none => []
              | some v => formatValue v) ∘ (·.name))
          = t.columns.map (fieldOf ∘ fun col => (buildRow t.columns vals []).getValue col.name) := rfl
        _ = (t.columns.map fun col => (buildRow t.columns vals []).getValue col.name).map fieldOf := by
            rw [List.map_map]
        _ = vals.map fieldOf := by rw [hread]
    rw [List.map_append, hold, List.map_cons, List.map_nil, hnew]
    simp

/-- Loading the serialised lines of a successful bulk insert re-runs
exactly the same inserts. -/
theorem loadRows_insertAll (rs : List (List GoVal)) (t tf : Table) (i : Nat)
    (hcols : t.columns ≠ [])
    (htyped : ∀ r ∈ rs, TypedRow t.columns r)
    (hclean : ∀ r ∈ rs, ∀ v ∈ r, CleanVal v)
    (h : insertAll t rs = (none, tf)) :
    loadRows t.columns (rs.map lineOf) i t = (none, tf) := by
  induction rs generalizing t i with
  | nil =>
    simp only [insertAll, Prod.mk.injEq, true_and] at h
    subst h
    rfl
  | cons vals rest ih =>
    obtain ⟨t1, hi, hrest⟩ := insertAll_ok_cons t tf vals rest h
    obtain ⟨hcols1, -, -, -, -, -⟩ := insertRow_ok_core t t1 _ hi
    have hT := htyped vals (.head _)
    have hC := hclean vals (.head _)
    have hlen : vals.length = t.columns.length := hT.length_eq.symm
    have hvne : vals ≠ [] := by
      intro hv
      rw [hv] at hlen
      exact hcols (List.length_eq_zero.mp hlen.symm)
    have hfchars : ∀ c ∈ lineOf vals, cleanChar c = true ∨ c = '-' ∨ c = ',' := by
      intro c hc
      rcases joinChar_chars ',' _ c hc with rfl | ⟨l, hl, hcl⟩
      · exact .inr (.inr rfl)
      · obtain ⟨v, hv, rfl⟩ := List.mem_map.mp hl
        rcases fieldOf_chars v (hC v hv) c hcl with h1 | rfl
        · exact .inl h1
        · exact .inr (.inl rfl)
    have htrimline : goTrimSpace (lineOf vals) = lineOf vals :=
      goTrimSpace_noop _ (fun c hc => by
        rcases hfchars c hc with h1 | rfl | rfl
        · exact (cleanChar_props c h1).2.2.2.2.2.2
        · decide
        · decide)
    have hlinene : lineOf vals ≠ [] := by
      cases hv : vals with
      | nil => exact absurd hv hvne
      | cons v vs =>
        unfold lineOf
        simp only [List.map_cons]
        cases vs with
        | nil =>
          simpa [joinChar] using fieldOf_ne_nil v (hC v (by rw [hv]; exact .head _))
        | cons v2 vs2 => simp [joinChar]
    have hquotefree : ∀ c ∈ lineOf vals, ¬c = '"' := fun c hc => by
      rcases hfchars c hc with h1 | rfl | rfl
      · exact (cleanChar_props c h1).2.2.2.1
      · decide
      · decide
    have hsplitline : parseCSVLine (lineOf vals) = vals.map fieldOf := by
      rw [parseCSVLine_no_quote _ hquotefree]
      exact splitChar_joinChar ',' _ (by simpa using hvne)
        (fun l hl c hcl => by
          obtain ⟨v, hv, rfl⟩ := List.mem_map.mp hl
          rcases fieldOf_chars v (hC v hv) c hcl with h1 | rfl
          · exact (cleanChar_props c h1).2.2.1
          · decide)
    rw [List.map_cons]
    rw [show loadRows t.columns (lineOf vals :: rest.map lineOf) i t
        = (let line' := goTrimSpace (lineOf vals)
           if line' = [] then loadRows t.columns (rest.map lineOf) (i + 1) t
           else
             let values := parseCSVLine line'
             if values.length ≠ t.columns.length then
               (some (.rowLengthMismatch i values.length t.columns.length), t)
             else
               match parseRowValues t.columns values [] with
               | .error e => (some e, t)
               | .ok row =>
                 match insertRow t row with
                 | (some e, _) => (some (.rowInsertError i e), t)
                 | (none, t') => loadRows t.columns (rest.map lineOf) (i + 1) t') from rfl]
    simp only [htrimline, hsplitline]
    rw [if_neg hlinene]
    rw [if_neg (by simp [hlen] : ¬((vals.map fieldOf).length ≠ t.columns.length))]
    rw [parseRowValues_fieldsOf t.columns vals hT hC []]
    simp only [hi]
    have := ih t1 (i + 1) (hcols1 ▸ hcols)
      (fun r hr => hcols1 ▸ htyped r (.tail _ hr))
      (fun r hr => hclean r (.tail _ hr)) hrest
    rw [← hcols1]
    exact this

/-! ## Round-trip development (C2): schema header and main theorem -/

/-- Characters of a serialised clean row line. -/
theorem lineOf_chars (vals : List GoVal) (hC : ∀ v ∈ vals, CleanVal v) :
    ∀ c ∈ lineOf vals, cleanChar c = true ∨ c = '-' ∨ c = ',' := by
  intro c hc
  rcases joinChar_chars ',' _ c hc with rfl | ⟨l, hl, hcl⟩
  · exact .inr (.inr rfl)
  · obtain ⟨v, hv, rfl⟩ := List.mem_map.mp hl
    rcases fieldOf_chars v (hC v hv) c hcl with h1 | rfl
    · exact .inl h1
    · exact .inr (.inl rfl)

/-- Characters of a clean column descriptor. -/
theorem colDefRender_chars (col : Column) (h : CleanStr col.name) :
    ∀ c ∈ colDefRender col, cleanChar c = true ∨ c = ':' := by
  obtain ⟨n, dt, pk, uq⟩ := col
  intro c hc
  unfold colDefRender at hc
  simp only [List.append_assoc, List.mem_append] at hc
  rcases hc with hc | hc | hc | hc | hc
  · exact .inl (h.2 c hc)
  · have : c = ':' := by simpa [gs] using hc
    exact .inr this
  · cases dt with
    | integer => exact .inl ((by decide : ∀ x ∈ gs "INTEGER", cleanChar x = true) c hc)
    | text => exact .inl ((by decide : ∀ x ∈ gs "TEXT", cleanChar x = true) c hc)
    | boolean => exact .inl ((by decide : ∀ x ∈ gs "BOOLEAN", cleanChar x = true) c hc)
  · cases pk with
    | false => exact absurd hc (List.not_mem_nil c)
    | true =>
      exact (by decide : ∀ x ∈ gs ":PRIMARY_KEY", cleanChar x = true ∨ x = ':') c hc
  · cases uq with
    | false => exact absurd hc (List.not_mem_nil c)
    | true =>
      exact (by decide : ∀ x ∈ gs ":UNIQUE", cleanChar x = true ∨ x = ':') c hc

/-- Parsing a rendered descriptor recovers the column. -/
theorem parseColDef_colDefRender (col : Column) (h : CleanStr col.name) :
    parseColDef (colDefRender col) = .ok col := by
  have hchars := colDefRender_chars col h
  have htrim : goTrimSpace (colDefRender col) = colDefRender col :=
    goTrimSpace_noop _ (fun c hc => by
      rcases hchars c hc with h1 | rfl
      · exact (cleanChar_props c h1).2.2.2.2.2.2
      · decide)
  obtain ⟨n, dt, pk, uq⟩ := col
  unfold parseColDef
  rw [htrim]
  have hform : colDefRender ⟨n, dt, pk, uq⟩
      = n ++ ':' :: (DataType.render dt
          ++ ((if pk then gs ":PRIMARY_KEY" else [])
            ++ (if uq then gs ":UNIQUE" else []))) := by
    simp [colDefRender, gs, List.append_assoc]
  rw [hform]
  simp only [splitChar_append ':' n _ (fun c hc => (cleanChar_props c (h.2 c hc)).2.2.2.2.1)]
  cases dt <;> cases pk <;> cases uq <;> rfl

/-- Parsing all rendered descriptors recovers the column list. -/
theorem parseColDefs_map (cols : List Column) (h : ∀ col ∈ cols, CleanStr col.name) :
    parseColDefs (cols.map colDefRender) = .ok cols := by
  induction cols with
  | nil => rfl
  | cons col cols' ih =>
    simp only [List.map_cons]
    rw [show parseColDefs (colDefRender col :: cols'.map colDefRender)
        = (match parseColDef (colDefRender col) with
           | .error e => .error e
           | .ok c =>
             match parseColDefs (cols'.map colDefRender) with
             | .error e => .error e
             | .ok cs => .ok (c :: cs)) from rfl]
    rw [parseColDef_colDefRender col (h col (.head _)),
      ih (fun c hc => h c (.tail _ hc))]

/-- C2 (amended): for every table reachable by successful inserts whose
column names and Text values are CSV-clean (non-empty strings of
letters/digits/underscore), whose column names are distinct, and whose
values are non-Null and well-typed, deserialising the serialisation
(`TableFromCSV` of `ToCSV`) succeeds and returns the identical table —
identical column definitions (names, types, both constraint flags, in
order) and identical row values in the same row order.  Without the
cleanliness restriction the claim is false (see the counterexample: a
leading space in a Text value is silently trimmed on the way back in). -/
theorem claim2_roundtrip (name : GoString) (cols : List Column)
    (rs : List (List GoVal)) (t : Table)
    (hcols : cols ≠ [])
    (hnames : ∀ col ∈ cols, CleanStr col.name)
    (hnodup : (cols.map (·.name)).Nodup)
    (htyped : ∀ r ∈ rs, TypedRow cols r)
    (hclean : ∀ r ∈ rs, ∀ v ∈ r, CleanVal v)
    (hbuild : buildTable name cols rs = (none, t)) :
    tableFromCSV name (toCSV t) = .ok t := by
  unfold buildTable at hbuild
  have hb0 : StoreBounded (newTable name cols) :=
    ⟨fun rid hrid => absurd hrid (List.not_mem_nil rid),
     fun p hp => absurd hp (List.not_mem_nil p)⟩
  have hlens : ∀ r ∈ rs, r.length = (newTable name cols).columns.length :=
    fun r hr => (htyped r hr).length_eq.symm
  obtain ⟨hcolsEq, -, -, hlines⟩ :=
    insertAll_render rs (newTable name cols) t hb0 hnodup hlens hbuild
  have hlines' : t.rowIds.map (rowLine t) = rs.map lineOf := by
    simpa using hlines
  have hcolsEq' : t.columns = cols := hcolsEq
  have htocsv : toCSV t
      = joinChar '\n' ((gs "# SCHEMA: " ++ joinChar ',' (cols.map colDefRender))
          :: rs.map lineOf) := by
    unfold toCSV
    rw [hlines', hcolsEq']
  have hSchars : ∀ c ∈ joinChar ',' (cols.map colDefRender),
      cleanChar c = true ∨ c = ':' ∨ c = ',' := by
    intro c hc
    rcases joinChar_chars ',' _ c hc with rfl | ⟨l, hl, hcl⟩
    · exact .inr (.inr rfl)
    · obtain ⟨col, hcolmem, rfl⟩ := List.mem_map.mp hl
      rcases colDefRender_chars col (hnames col hcolmem) c hcl with h1 | rfl
      · exact .inl h1
      · exact .inr (.inl rfl)
  have hsplit : splitChar '\n'
      (joinChar '\n' ((gs "# SCHEMA: " ++ joinChar ',' (cols.map colDefRender))
        :: rs.map lineOf))
      = (gs "# SCHEMA: " ++ joinChar ',' (cols.map colDefRender)) :: rs.map lineOf := by
    apply splitChar_joinChar
    · simp
    · intro l hl c hc
      rcases List.mem_cons.mp hl with rfl | hl2
      · rcases List.mem_append.mp hc with h1 | h2
        · exact (by decide : ∀ x ∈ gs "# SCHEMA: ", ¬x = '\n') c h1
        · rcases hSchars c h2 with h1 | rfl | rfl
          · exact (cleanChar_props c h1).2.2.2.2.2.1
          · decide
          · decide
      · obtain ⟨vals, hvals, rfl⟩ := List.mem_map.mp hl2
        rcases lineOf_chars vals (hclean vals hvals) c hc with h1 | rfl | rfl
        · exact (cleanChar_props c h1).2.2.2.2.2.1
        · decide
        · decide
  have hsplitS : splitChar ',' (joinChar ',' (cols.map colDefRender))
      = cols.map colDefRender := by
    apply splitChar_joinChar
    · simpa using hcols
    · intro l hl c hc
      obtain ⟨col, hcolmem, rfl⟩ := List.mem_map.mp hl
      rcases colDefRender_chars col (hnames col hcolmem) c hc with h1 | rfl
      · exact (cleanChar_props c h1).2.2.1
      · decide
  rw [htocsv]
  unfold tableFromCSV
  simp only [hsplit]
  rw [if_pos (by rw [goStartsWith_append])]
  rw [goDropStart_append, hsplitS, parseColDefs_map cols hnames]
  have hload : loadRows cols (rs.map lineOf) 1 (newTable name cols) = (none, t) :=
    loadRows_insertAll rs (newTable name cols) t 1 hcols htyped hclean hbuild
  simp only [hload]

/-- C2 counterexample: a table built by successful inserts, covering all
three data types and both constraint flags, whose Text value carries a
leading space; deserialising its serialisation does not return the same
table (the space is trimmed away by `parseValue`). -/
theorem claim2_counterexample :
    buildTable (gs "users") exCols [exBadRow] = (none, exBad) ∧
    tableFromCSV (gs "users") (toCSV exBad) ≠ .ok exBad := by decide

/-- Witness for C2's amended round-trip theorem on a clean two-row table
covering all three data types and both constraint flags. -/
theorem claim2_roundtrip_witness :
    tableFromCSV (gs "users") (toCSV exGood) = .ok exGood :=
  claim2_roundtrip (gs "users") exCols [exRow1, exRow2] exGood (by decide) (by decide)
    (by decide)
    (by
      intro r hr
      rcases List.mem_cons.mp hr with rfl | hr2
      · exact .cons (by decide) (.cons (by decide) (.cons (by decide) .nil))
      · rcases List.mem_cons.mp hr2 with rfl | hr3
        · exact .cons (by decide) (.cons (by decide) (.cons (by decide) .nil))
        · exact absurd hr3 (List.not_mem_nil r))
    (by decide) (by decide)

end GoRdbms
